import Mathlib

/-!
Package enumstr: value/string enumerations.

A shallow embedding of the Go package `enumstr` (`enumstr.go`, `uint.go`,
`map.go`) and the properties of its sequential and associative enums.

Conventions of the embedding.

* Go's `uint` and `int` have the same width, `uintBits`; a `uint` is a natural
  number below `2 ^ uintBits`, and the conversion `int(i)` is two's complement
  reinterpretation (`toInt`).
* A value held in an `interface{}` is a `Value`; two of them are equal when
  their dynamic types and their contents are equal. A slice is a value of
  non-comparable type: reading a map at such a key panics, and no map holds
  one as a key.
* A function that can panic returns `Except Panic _`; a Go result pair
  `(x, err)` is a pair whose second component is `none` for a nil error.
* A Go map is the list of its entries with pairwise distinct keys. A `range`
  loop visits the list front to back; Go leaves the visiting order open, so
  the theorems about a `range` loop hold for every permutation of the entries.
-/

namespace enumstr

/-! ## Values, errors and panics -/

/-- Width in bits of Go's `uint` and `int` (64-bit targets). -/
def uintBits : Nat := 64

/-- Dynamic values, as held by an `interface{}`: a `uint`, an `int`, a
`string`, a struct of string fields under its type name (`REST`, `MIME` in
the tests), all of comparable type, or a slice of `int`, whose type is not
comparable. -/
inductive Value where
  | uint (n : Nat)
  | int (i : Int)
  | str (s : String)
  | record (typ : String) (fields : List String)
  | slice (elems : List Int)
  deriving DecidableEq, Repr

/-- Dynamic type name of a value, as printed by the verb `%T`. -/
def Value.typeName : Value → String
  | .uint _ => "uint"
  | .int _ => "int"
  | .str _ => "string"
  | .record typ _ => typ
  | .slice _ => "[]int"

/-- The dynamic type of the value is comparable, so that the value can be
hashed as the key of a map. -/
def Value.comparable : Value → Bool
  | .slice _ => false
  | _ => true

/-- Errors returned by the package: the sentinel `ErrUnknown`, an error made
by `fmt.Errorf` from a format string and its one or two arguments, or an error
made by a library (`encoding/json`). -/
inductive GoError where
  | ErrUnknown
  | errorf (format : String) (arg : String)
  | errorf2 (format : String) (arg1 arg2 : String)
  | library (msg : String)
  deriving DecidableEq, Repr

/-- Payload of a panic. -/
inductive Panic where
  -- runtime error of an index expression `a[index]` with `len(a) = len`
  | indexOutOfRange (index len : Nat)
  -- panic of `dupCheck`, carrying the duplicated strings
  | duplicateStrings (dups : List String)
  -- panic with the text "unknown default"
  | unknownDefault
  -- panic of `EnumMap`, carrying the error of `invert`
  | error (e : GoError)
  -- panic of the library `reflect`
  | reflect (msg : String)
  -- runtime error "hash of unhashable type" of a map read, with the type
  | unhashable (typ : String)
  deriving DecidableEq, Repr

/-- Conversion `int(i)` of a `uint`: the same bits read as a signed integer. -/
def toInt (i : Nat) : Int :=
  if i % 2 ^ uintBits < 2 ^ (uintBits - 1) then ((i % 2 ^ uintBits : Nat) : Int)
  else ((i % 2 ^ uintBits : Nat) : Int) - 2 ^ uintBits

/-- Conversion `uint(i)` of a non-negative `int` index. -/
def toUint (i : Nat) : Nat := i % 2 ^ uintBits

/-- Index expression `a[i]` with a `uint` index: panics outside `0 ≤ i < len(a)`. -/
def index (a : List String) (i : Nat) : Except Panic String :=
  match a[i]? with
  | some s => .ok s
  | none => .error (.indexOutOfRange i a.length)

/-! ## Go maps -/

/-- Map read `m[k]` with the comma-ok form: `none` when the key is absent. -/
def mapGet {κ ν : Type} [DecidableEq κ] : List (κ × ν) → κ → Option ν
  | [], _ => none
  | (k, x) :: rest, key => if k = key then some x else mapGet rest key

/-- Map write `m[k] = x`. -/
def mapSet {κ ν : Type} [DecidableEq κ] : List (κ × ν) → κ → ν → List (κ × ν)
  | [], key, x => [(key, x)]
  | (k, y) :: rest, key, x => if k = key then (k, x) :: rest else (k, y) :: mapSet rest key x

/-! ## uint.go -/

/-- Statement `set[s] += 1` on a `map[string]int`: an absent key reads as `0`.
A count never exceeds `len(strs)`, so it cannot overflow. -/
def incr (set : List (String × Nat)) (s : String) : List (String × Nat) :=
  mapSet set s ((mapGet set s).getD 0 + 1)

/-- Strings collected by the second loop of `dupCheck`: the keys whose count
exceeds one. -/
def dupCheck.dups (strs : List String) : List String :=
  ((strs.foldl incr []).filter (fun kc => decide (kc.2 > 1))).map Prod.fst

/-- Go `dupCheck`: panics with the duplicated strings when there are any. -/
def dupCheck (strs : List String) : Except Panic Unit :=
  if (dupCheck.dups strs).length > 0 then .error (.duplicateStrings (dupCheck.dups strs))
  else .ok ()

/-- Go `type uintEnum []string`. -/
abbrev uintEnum := List String

/-- Go `uintEnum.Format`. -/
def uintEnum.Format (enum : uintEnum) (v : Value) : Except Panic (String × Option GoError) :=
  match v with
  | .uint i =>
    if toInt i < (enum.length : Int) then
      (index enum i).map (fun s => (s, none))
    else .ok ("", some .ErrUnknown)
  | _ => .ok ("", some (.errorf "expected uint but received %T" v.typeName))

/-- Loop of `uintEnum.Parse` from position `i` on, `rest` being `enum[i:]`. -/
def uintEnum.parseFrom (str : String) : List String → Nat → Value × Option GoError
  | [], _ => (.int 0, some .ErrUnknown)
  | s :: rest, i => if s = str then (.uint (toUint i), none) else parseFrom str rest (i + 1)

/-- Go `uintEnum.Parse`. -/
def uintEnum.Parse (enum : uintEnum) (str : String) : Value × Option GoError :=
  uintEnum.parseFrom str enum 0

/-- Go `type uintEnumDefault struct`. -/
structure uintEnumDefault where
  invalid : Nat
  toUintEnum : uintEnum
  deriving DecidableEq, Repr

/-- Go `UintEnumDefault`. -/
def UintEnumDefault (invalid : Nat) (m : List String) : Except Panic uintEnumDefault :=
  match dupCheck m with
  | .error p => .error p
  | .ok () =>
    if toInt invalid < (m.length : Int) then .ok { invalid := invalid, toUintEnum := m }
    else .error .unknownDefault

/-- Go `uintEnumDefault.Format`. -/
def uintEnumDefault.Format (enum : uintEnumDefault) (v : Value) : Except Panic String :=
  match enum.toUintEnum.Format v with
  | .error p => .error p
  | .ok (str, err) =>
    if err ≠ none then index enum.toUintEnum enum.invalid
    else .ok str

/-- Go `uintEnumDefault.Parse`. -/
def uintEnumDefault.Parse (enum : uintEnumDefault) (str : String) : Value :=
  match enum.toUintEnum.Parse str with
  | (v, err) => if err ≠ none then .uint enum.invalid else v

/-- Go `UintEnum`: the enum is a copy of the checked slice. -/
def UintEnum (m : List String) : Except Panic uintEnum :=
  match dupCheck m with
  | .error p => .error p
  | .ok () => .ok m

/-! ## map.go -/

/-- Go `type Map map[interface{}]string`. -/
abbrev Map := List (Value × String)

/-- Loop of `Map.invert` over the entries still to visit, `rev` being the
inverse built so far. -/
def Map.invertFrom (rev : List (String × Value)) :
    List (Value × String) → Except GoError (List (String × Value))
  | [] => .ok rev
  | (v, str) :: rest =>
    if (mapGet rev str).isSome then .error (.errorf "duplicate string %q" str)
    else Map.invertFrom (mapSet rev str v) rest

/-- Go `Map.invert`. -/
def Map.invert (m : Map) : Except GoError (List (String × Value)) :=
  Map.invertFrom [] m

/-- Go `type enumMap struct`. -/
structure enumMap where
  m : Map
  rev : List (String × Value)
  deriving DecidableEq, Repr

/-- Go `EnumMap`. -/
def EnumMap (m : Map) : Except Panic enumMap :=
  match m.invert with
  | .error err => .error (.error err)
  | .ok rev => .ok { m := m, rev := rev }

/-- Map read `m[v]` of a `Map` with the comma-ok form: the key is an
`interface{}`, and the read panics when its dynamic type is not comparable. -/
def Map.read (m : Map) (v : Value) : Except Panic (Option String) :=
  if v.comparable then .ok (mapGet m v) else .error (.unhashable v.typeName)

/-- Go `enumMap.Format`: the panic of the map read is not caught. -/
def enumMap.Format (enum : enumMap) (v : Value) : Except Panic (String × Option GoError) :=
  match Map.read enum.m v with
  | .error p => .error p
  | .ok (some str) => .ok (str, none)
  | .ok none => .ok ("", some .ErrUnknown)

/-- Loop of `enumMap.Parse` over the entries of the forward map. -/
def enumMap.scan (str : String) : List (Value × String) → Value × Option GoError
  | [] => (.str "", some .ErrUnknown)
  | (v, vstr) :: rest => if vstr = str then (v, none) else enumMap.scan str rest

/-- Go `enumMap.Parse`. -/
def enumMap.Parse (enum : enumMap) (str : String) : Value × Option GoError :=
  enumMap.scan str enum.m

/-- The same enum with the entries of its forward map in another visiting
order. -/
def enumMap.revisit (enum : enumMap) (visit : List (Value × String)) : enumMap :=
  { enum with m := visit }

/-- Go `type enumMapDefault struct`; the field `def` is named `deflt`. -/
structure enumMapDefault where
  deflt : Value
  m : enumMap
  deriving DecidableEq, Repr

/-- The same wrapper with the entries of its forward map in another visiting
order. -/
def enumMapDefault.revisit (enum : enumMapDefault) (visit : List (Value × String)) :
    enumMapDefault :=
  { enum with m := enum.m.revisit visit }

/-- Go `EnumMapDefault`. -/
def EnumMapDefault (deflt : Value) (m : Map) : Except Panic enumMapDefault :=
  match Map.read m deflt with
  | .error p => .error p
  | .ok (some _) =>
    match EnumMap m with
    | .error p => .error p
    | .ok enum => .ok { deflt := deflt, m := enum }
  | .ok none => .error .unknownDefault

/-- Go `enumMapDefault.Format`: a panic of the base `Format` propagates. -/
def enumMapDefault.Format (enum : enumMapDefault) (v : Value) : Except Panic String :=
  match enum.m.Format v with
  | .error p => .error p
  | .ok (str, none) => .ok str
  | .ok (_, some _) =>
    match enum.m.Format enum.deflt with
    | .error p => .error p
    | .ok (str, _) => .ok str

/-- Go `enumMapDefault.Parse`. -/
def enumMapDefault.Parse (enum : enumMapDefault) (str : String) : Value :=
  match enum.m.Parse str with
  | (v, none) => v
  | (_, some _) => enum.deflt

/-! ## enumstr.go -/

/-- Go `type Enum interface`: a method may panic. -/
structure Enum where
  Format : Value → Except Panic (String × Option GoError)
  Parse : String → Except Panic (Value × Option GoError)

/-- Go `type EnumDefault interface`: a method may panic. -/
structure EnumDefault where
  Format : Value → Except Panic String
  Parse : String → Except Panic Value

/-- The sequential enum as an `Enum`. -/
def uintEnum.toEnum (enum : uintEnum) : Enum where
  Format := enum.Format
  Parse := fun str => .ok (enum.Parse str)

/-- The associative enum as an `Enum`. -/
def enumMap.toEnum (enum : enumMap) : Enum where
  Format := enum.Format
  Parse := fun str => .ok (enum.Parse str)

/-- The sequential wrapper as an `EnumDefault`. -/
def uintEnumDefault.toEnumDefault (enum : uintEnumDefault) : EnumDefault where
  Format := enum.Format
  Parse := fun str => .ok (enum.Parse str)

/-- The associative wrapper as an `EnumDefault`. -/
def enumMapDefault.toEnumDefault (enum : enumMapDefault) : EnumDefault where
  Format := enum.Format
  Parse := fun str => .ok (enum.Parse str)

/-- Go `[]byte`. -/
abbrev Bytes := List UInt8

/-- The two functions of the library `encoding/json` that the package calls,
both at the type `string`: `json.Marshal(str)` with its two results, and
`json.Unmarshal(p, &str)`, which gives the decoded string or the decoder's
error. They are parameters of the embedding. -/
structure Json where
  Marshal : String → Bytes × Option GoError
  Unmarshal : Bytes → Except GoError String

/-- Static type of a Go variable: a concrete type under the name the verb `%T`
prints, or the empty interface. -/
inductive GoType where
  | concrete (name : String)
  | emptyInterface
  deriving DecidableEq, Repr

/-- The argument `val` of the unmarshal functions: a pointer to a variable of
a static type with its content, or an argument the library `reflect` cannot
set (not a pointer, or a nil pointer), under the name of its dynamic type. -/
inductive Target where
  | pointer (typ : GoType) (content : Value)
  | notSettable (typ : String)
  deriving DecidableEq, Repr

/-- Dynamic type name of the argument `val`, as printed by the verb `%T`. -/
def Target.typeName : Target → String
  | .pointer (.concrete name) _ => "*" ++ name
  | .pointer .emptyInterface _ => "*interface \x7b\x7d"
  | .notSettable typ => typ

/-- Assignability of a value to a variable of a static type: the dynamic type
of the value is that type, or the variable is of the empty interface type. -/
def assignable (v : Value) : GoType → Bool
  | .concrete name => decide (v.typeName = name)
  | .emptyInterface => true

/-- Statement `reflect.Indirect(reflect.ValueOf(val)).Set(reflect.ValueOf(enum))`:
the variable behind the pointer takes the value when it is assignable, and
`Set` panics, before it writes anything, in every other case. -/
def reflectSet (val : Target) (enum : Value) : Except Panic Target :=
  match val with
  | .pointer typ _ =>
    if assignable enum typ then .ok (.pointer typ enum)
    else .error (.reflect "value is not assignable")
  | .notSettable _ => .error (.reflect "value is not settable")

/-- Go `String`, under another name: `String` is the type of strings here. -/
def enumString (enum : Enum) (val : Value) (invalid : String) : Except Panic String :=
  match enum.Format val with
  | .error p => .error p
  | .ok (str, err) => if err ≠ none then .ok invalid else .ok str

/-- Go `MarshalJSON`. -/
def MarshalJSON (json : Json) (m : Enum) (val : Value) :
    Except Panic (Bytes × Option GoError) :=
  match m.Format val with
  | .error p => .error p
  | .ok (str, err) => if err ≠ none then .ok ([], err) else .ok (json.Marshal str)

/-- Go `UnmarshalJSON`: the error returned and the argument `val` after the
call. The deferred `recover` is installed after `Parse` has returned, so it
turns a panic of the assignment, and no other, into an error. -/
def UnmarshalJSON (json : Json) (m : Enum) (p : Bytes) (val : Target) :
    Except Panic (Option GoError × Target) :=
  match json.Unmarshal p with
  | .error err => .ok (some err, val)
  | .ok str =>
    match m.Parse str with
    | .error pn => .error pn
    | .ok (enum, err) =>
      if err ≠ none then .ok (err, val)
      else
        match reflectSet val enum with
        | .error _ =>
          .ok (some (.errorf2 "can't assign %T to %T" enum.typeName val.typeName), val)
        | .ok val2 => .ok (none, val2)

/-- Go `StringDefault`. -/
def StringDefault (enum : EnumDefault) (val : Value) : Except Panic String :=
  enum.Format val

/-- Go `MarshalJSONDefault`. -/
def MarshalJSONDefault (json : Json) (m : EnumDefault) (val : Value) :
    Except Panic (Bytes × Option GoError) :=
  match m.Format val with
  | .error p => .error p
  | .ok str => .ok (json.Marshal str)

/-- Go `UnmarshalJSONDefault`: the error returned and the argument `val` after
the call. -/
def UnmarshalJSONDefault (json : Json) (m : EnumDefault) (p : Bytes) (val : Target) :
    Except Panic (Option GoError × Target) :=
  match json.Unmarshal p with
  | .error err => .ok (some err, val)
  | .ok str =>
    match m.Parse str with
    | .error pn => .error pn
    | .ok enum =>
      match reflectSet val enum with
      | .error _ =>
        .ok (some (.errorf2 "can't assign %T to %T" enum.typeName val.typeName), val)
      | .ok val2 => .ok (none, val2)

/-- Strings collected by the second loop of `dupCheck` when it visits the
entries of the counting map in the order `visit`. -/
def dupCheck.collect (visit : List (String × Nat)) : List String :=
  (visit.filter (fun kc => decide (kc.2 > 1))).map Prod.fst

/-- The library on the inputs of the tests, for the examples: a string is
encoded between two quote bytes, and the bytes of `"apps"` and of `"blah"`
decode to these strings; the bytes of `null` decode with a nil error and
leave the string as it was declared, empty, which is what the library does
with the JSON value null for a destination of type `string`; any other input
is a decoder error. -/
def testJson : Json where
  Marshal := fun str => (34 :: (str.toUTF8.toList ++ [34]), none)
  Unmarshal := fun p =>
    if p = [34, 97, 112, 112, 115, 34] then .ok "apps"
    else if p = [34, 98, 108, 97, 104, 34] then .ok "blah"
    else if p = [110, 117, 108, 108] then .ok ""
    else .error (.library "json: cannot unmarshal into Go value of type string")

/-- The input begins, after white space, with the quote byte that opens a
JSON string; an input that does not is not a JSON string. -/
def startsJSONString (p : Bytes) : Bool :=
  match p.dropWhile (fun b => b == 32 || b == 9 || b == 10 || b == 13) with
  | b :: _ => b == 34
  | [] => false

/-! ## Predicates of the proofs -/

/-- The counting map after the first loop of `dupCheck` has visited `seen`. -/
def CountsOf (set : List (String × Nat)) (seen : List String) : Prop :=
  (set.map Prod.fst).Nodup ∧
    ∀ k, mapGet set k = if seen.count k = 0 then none else some (seen.count k)

/-- Two distinct keys of the map share a string. -/
def Map.sharesString (m : Map) : Prop :=
  ∃ v1 v2 : Value, ∃ s : String, v1 ≠ v2 ∧ mapGet m v1 = some s ∧ mapGet m v2 = some s

/-! ## Lemmas on maps -/

theorem mapGet_eq_some_of_mem {κ ν : Type} [DecidableEq κ] (m : List (κ × ν))
    (hk : (m.map Prod.fst).Nodup) (k : κ) (x : ν) :
    (k, x) ∈ m ↔ mapGet m k = some x := by
  induction m with
  | nil => simp [mapGet]
  | cons e rest ih =>
    obtain ⟨k0, x0⟩ := e
    simp only [List.map_cons, List.nodup_cons, List.mem_map, not_exists, not_and] at hk
    by_cases h : k0 = k
    · subst h
      simp only [mapGet, if_true, List.mem_cons, Prod.mk.injEq, true_and, Option.some.injEq]
      constructor
      · rintro (h | h)
        · exact h.symm
        · exact absurd rfl (hk.1 (k0, x) h)
      · intro h; exact Or.inl h.symm
    · simp only [mapGet, if_neg h, List.mem_cons, Prod.mk.injEq]
      rw [← ih hk.2]
      constructor
      · rintro (⟨h1, _⟩ | h1)
        · exact absurd h1.symm h
        · exact h1
      · intro h1; exact Or.inr h1

theorem mapGet_eq_none_iff {κ ν : Type} [DecidableEq κ] (m : List (κ × ν)) (k : κ) :
    mapGet m k = none ↔ k ∉ m.map Prod.fst := by
  induction m with
  | nil => simp [mapGet]
  | cons e rest ih =>
    obtain ⟨k0, x0⟩ := e
    by_cases h : k0 = k
    · simp [mapGet, h]
    · simp only [mapGet, if_neg h, ih, List.map_cons, List.mem_cons, not_or]
      constructor
      · intro h1; exact ⟨fun h2 => h h2.symm, h1⟩
      · intro h1; exact h1.2

theorem mapGet_mapSet {κ ν : Type} [DecidableEq κ] (m : List (κ × ν)) (k : κ) (x : ν)
    (key : κ) : mapGet (mapSet m k x) key = if k = key then some x else mapGet m key := by
  induction m with
  | nil => simp [mapSet, mapGet]
  | cons e rest ih =>
    obtain ⟨k0, x0⟩ := e
    by_cases h : k0 = k
    · subst h
      by_cases h2 : k0 = key <;> simp [mapSet, mapGet, h2]
    · by_cases h2 : k0 = key
      · subst h2
        simp [mapSet, mapGet, h, Ne.symm h]
      · simp [mapSet, mapGet, h, h2, ih]

theorem keys_mapSet {κ ν : Type} [DecidableEq κ] (m : List (κ × ν)) (k : κ) (x : ν) :
    (mapSet m k x).map Prod.fst =
      if k ∈ m.map Prod.fst then m.map Prod.fst else m.map Prod.fst ++ [k] := by
  induction m with
  | nil => simp [mapSet]
  | cons e rest ih =>
    obtain ⟨k0, x0⟩ := e
    by_cases h : k0 = k
    · subst h
      simp [mapSet]
    · have h2 : ¬ k = k0 := fun h3 => h h3.symm
      by_cases h4 : k ∈ rest.map Prod.fst
      · simp only [mapSet, if_neg h, List.map_cons, ih, if_pos h4, List.mem_cons, h4, or_true,
          if_true]
      · simp only [mapSet, if_neg h, List.map_cons, ih, if_neg h4, List.mem_cons, h2, h4, or_self,
          if_false, List.cons_append]

theorem nodup_keys_mapSet {κ ν : Type} [DecidableEq κ] (m : List (κ × ν)) (k : κ) (x : ν)
    (hk : (m.map Prod.fst).Nodup) : ((mapSet m k x).map Prod.fst).Nodup := by
  rw [keys_mapSet]
  by_cases h : k ∈ m.map Prod.fst
  · rw [if_pos h]; exact hk
  · rw [if_neg h]
    exact List.Nodup.append hk (List.nodup_singleton k) (by simpa using h)

/-! ## Lemmas on `dupCheck` -/

theorem countsOf_incr (set : List (String × Nat)) (seen : List String) (s : String)
    (h : CountsOf set seen) : CountsOf (incr set s) (seen ++ [s]) := by
  refine ⟨nodup_keys_mapSet _ _ _ h.1, fun k => ?_⟩
  have hs : (mapGet set s).getD 0 = seen.count s := by
    rw [h.2 s]
    by_cases h0 : seen.count s = 0
    · simp [h0]
    · simp [h0]
  unfold incr
  rw [mapGet_mapSet, hs, List.count_append, List.count_singleton]
  by_cases hk : s = k
  · subst hk
    simp
  · have hk2 : ¬ (s == k) = true := by simpa using hk
    have hk3 : ¬ (k == s) = true := by simpa using fun h3 : k = s => hk h3.symm
    simp only [if_neg hk, hk2, hk3, h.2 k]
    simp

theorem countsOf_foldl (strs : List String) (set : List (String × Nat)) (seen : List String)
    (h : CountsOf set seen) : CountsOf (strs.foldl incr set) (seen ++ strs) := by
  induction strs generalizing set seen with
  | nil => simpa using h
  | cons s rest ih =>
    have := ih (incr set s) (seen ++ [s]) (countsOf_incr set seen s h)
    simpa using this

theorem countsOf_all (strs : List String) : CountsOf (strs.foldl incr []) strs := by
  have := countsOf_foldl strs [] [] ⟨by simp, fun k => by simp [mapGet]⟩
  simpa using this

theorem mem_counts_iff (strs : List String) (k : String) (c : Nat) :
    (k, c) ∈ strs.foldl incr [] ↔ c = strs.count k ∧ 0 < c := by
  have h := countsOf_all strs
  rw [mapGet_eq_some_of_mem _ h.1, h.2 k]
  by_cases h0 : strs.count k = 0
  · simp only [h0, if_true]
    constructor
    · intro h1; cases h1
    · rintro ⟨h1, h2⟩; omega
  · simp only [h0, if_false, Option.some.injEq]
    constructor
    · intro h1; omega
    · rintro ⟨h1, _⟩; omega

theorem mem_dups_iff (strs : List String) (k : String) :
    k ∈ dupCheck.dups strs ↔ 1 < strs.count k := by
  unfold dupCheck.dups
  simp only [List.mem_map, List.mem_filter, decide_eq_true_eq, Prod.exists, exists_and_right,
    exists_eq_right]
  constructor
  · rintro ⟨c, hc, h1⟩
    rw [mem_counts_iff] at hc
    omega
  · intro h1
    exact ⟨strs.count k, (mem_counts_iff strs k _).2 ⟨rfl, by omega⟩, h1⟩

theorem dups_eq_nil_iff (strs : List String) : dupCheck.dups strs = [] ↔ strs.Nodup := by
  rw [List.eq_nil_iff_forall_not_mem, List.nodup_iff_count_le_one]
  constructor
  · intro h a
    have := h a
    rw [mem_dups_iff] at this
    omega
  · intro h a
    rw [mem_dups_iff]
    have := h a
    omega

theorem dupCheck_ok_iff (strs : List String) : dupCheck strs = .ok () ↔ strs.Nodup := by
  rw [← dups_eq_nil_iff]
  unfold dupCheck
  cases hd : dupCheck.dups strs with
  | nil => simp
  | cons a l => simp

theorem dupCheck_of_nodup (strs : List String) (h : strs.Nodup) : dupCheck strs = .ok () :=
  (dupCheck_ok_iff strs).2 h

theorem dupCheck_of_not_nodup (strs : List String) (h : ¬ strs.Nodup) :
    dupCheck strs = .error (.duplicateStrings (dupCheck.dups strs)) := by
  have h1 : dupCheck.dups strs ≠ [] := fun h2 => h ((dups_eq_nil_iff strs).1 h2)
  unfold dupCheck
  rw [if_pos (List.length_pos.2 h1)]

/-! ## Lemmas on the sequential enum -/

theorem toInt_of_lt (i : Nat) (h : i < 2 ^ (uintBits - 1)) : toInt i = (i : Int) := by
  have h1 : i % 2 ^ uintBits = i := Nat.mod_eq_of_lt (by simp only [uintBits] at h ⊢; omega)
  unfold toInt
  rw [h1, if_pos h]

theorem toInt_neg (i : Nat) (h1 : 2 ^ (uintBits - 1) ≤ i) (h2 : i < 2 ^ uintBits) :
    toInt i < 0 := by
  have h3 : i % 2 ^ uintBits = i := Nat.mod_eq_of_lt h2
  unfold toInt
  rw [h3, if_neg (by omega)]
  have : ((i : Nat) : Int) < ((2 ^ uintBits : Nat) : Int) := by exact_mod_cast h2
  push_cast at this
  omega

theorem toUint_of_lt (i : Nat) (h : i < 2 ^ (uintBits - 1)) : toUint i = i :=
  Nat.mod_eq_of_lt (by simp only [uintBits] at h ⊢; omega)

theorem index_of_lt (a : List String) (i : Nat) (h : i < a.length) :
    index a i = .ok (a.get ⟨i, h⟩) := by
  unfold index
  rw [List.getElem?_eq_getElem h]
  rfl

theorem index_of_ge (a : List String) (i : Nat) (h : a.length ≤ i) :
    index a i = .error (.indexOutOfRange i a.length) := by
  unfold index
  rw [List.getElem?_eq_none h]

theorem Format_uint_of_lt (enum : uintEnum) (hlen : enum.length < 2 ^ (uintBits - 1))
    (i : Nat) (h : i < enum.length) :
    enum.Format (.uint i) = .ok (enum.get ⟨i, h⟩, none) := by
  unfold uintEnum.Format
  have h1 : toInt i < (enum.length : Int) := by
    rw [toInt_of_lt i (by omega)]
    exact_mod_cast h
  simp only [if_pos h1, index_of_lt enum i h]
  rfl

theorem Format_uint_of_ge (enum : uintEnum) (i : Nat) (h : enum.length ≤ i)
    (hi : i < 2 ^ (uintBits - 1)) :
    enum.Format (.uint i) = .ok ("", some .ErrUnknown) := by
  unfold uintEnum.Format
  have h1 : ¬ toInt i < (enum.length : Int) := by
    rw [toInt_of_lt i hi]
    exact_mod_cast Nat.not_lt.2 h
  simp only [if_neg h1]

theorem Format_uint_of_high (enum : uintEnum) (hlen : enum.length < 2 ^ (uintBits - 1))
    (i : Nat) (h1 : 2 ^ (uintBits - 1) ≤ i) (h2 : i < 2 ^ uintBits) :
    enum.Format (.uint i) = .error (.indexOutOfRange i enum.length) := by
  unfold uintEnum.Format
  have h3 : toInt i < (enum.length : Int) :=
    lt_of_lt_of_le (toInt_neg i h1 h2) (Int.natCast_nonneg _)
  simp only [if_pos h3, index_of_ge enum i (by omega)]
  rfl

theorem parseFrom_of_not_mem (str : String) (l : List String) (i : Nat) (h : str ∉ l) :
    uintEnum.parseFrom str l i = (.int 0, some .ErrUnknown) := by
  induction l generalizing i with
  | nil => rfl
  | cons s rest ih =>
    simp only [List.mem_cons, not_or] at h
    have hs : ¬ s = str := fun h1 => h.1 h1.symm
    simp only [uintEnum.parseFrom, if_neg hs]
    exact ih (i + 1) h.2

theorem parseFrom_get (l : List String) (hnd : l.Nodup) (i j : Nat) (hj : j < l.length) :
    uintEnum.parseFrom (l.get ⟨j, hj⟩) l i = (.uint (toUint (i + j)), none) := by
  induction l generalizing i j with
  | nil => simp at hj
  | cons s rest ih =>
    rw [List.nodup_cons] at hnd
    cases j with
    | zero => simp [uintEnum.parseFrom]
    | succ k =>
      have hk : k < rest.length := by simpa using hj
      have hs : ¬ s = rest.get ⟨k, hk⟩ := fun h1 => hnd.1 (h1 ▸ List.get_mem rest k hk)
      simp only [List.get_cons_succ, uintEnum.parseFrom]
      rw [if_neg hs, ih hnd.2 (i + 1) k hk]
      congr 3
      omega

theorem Parse_get (enum : uintEnum) (hlen : enum.length < 2 ^ (uintBits - 1))
    (hnd : enum.Nodup) (j : Nat) (hj : j < enum.length) :
    enum.Parse (enum.get ⟨j, hj⟩) = (.uint j, none) := by
  unfold uintEnum.Parse
  rw [parseFrom_get enum hnd 0 j hj, Nat.zero_add, toUint_of_lt j (by omega)]

theorem UintEnum_of_nodup (strs : List String) (h : strs.Nodup) : UintEnum strs = .ok strs := by
  unfold UintEnum
  rw [dupCheck_of_nodup strs h]

theorem UintEnum_of_not_nodup (strs : List String) (h : ¬ strs.Nodup) :
    UintEnum strs = .error (.duplicateStrings (dupCheck.dups strs)) := by
  unfold UintEnum
  rw [dupCheck_of_not_nodup strs h]

theorem UintEnumDefault_eq_ok (invalid : Nat) (strs : List String) (d : uintEnumDefault)
    (h : UintEnumDefault invalid strs = .ok d) :
    strs.Nodup ∧ toInt invalid < (strs.length : Int) ∧
      d = { invalid := invalid, toUintEnum := strs } := by
  unfold UintEnumDefault at h
  by_cases hnd : strs.Nodup
  · rw [dupCheck_of_nodup strs hnd] at h
    by_cases hi : toInt invalid < (strs.length : Int)
    · simp only [if_pos hi, Except.ok.injEq] at h
      exact ⟨hnd, hi, h.symm⟩
    · simp only [if_neg hi] at h
      cases h
  · rw [dupCheck_of_not_nodup strs hnd] at h
    cases h

theorem UintEnumDefault_of_nodup (invalid : Nat) (strs : List String) (hnd : strs.Nodup)
    (hi : toInt invalid < (strs.length : Int)) :
    UintEnumDefault invalid strs = .ok { invalid := invalid, toUintEnum := strs } := by
  unfold UintEnumDefault
  rw [dupCheck_of_nodup strs hnd]
  simp only [if_pos hi]

/-! ## Sequential enum: claims -/

/-- C1: for a list `strs` of pairwise distinct strings and an index
`i < len(strs)`, `UintEnum(strs)` returns an enum whose `Format(uint(i))`
succeeds with `strs[i]` and whose `Parse(strs[i])` succeeds with `uint(i)`;
so parsing what `Format` returned gives back `uint(i)` and formatting what
`Parse` returned gives back `strs[i]`. -/
theorem C1_uintEnum_round_trip (strs : List String) (hlen : strs.length < 2 ^ (uintBits - 1))
    (hnd : strs.Nodup) (i : Nat) (hi : i < strs.length) :
    ∃ enum : uintEnum, UintEnum strs = .ok enum ∧
      enum.Format (.uint i) = .ok (strs.get ⟨i, hi⟩, none) ∧
      enum.Parse (strs.get ⟨i, hi⟩) = (.uint i, none) ∧
      (∀ s, enum.Format (.uint i) = .ok (s, none) → enum.Parse s = (.uint i, none)) ∧
      (∀ v, enum.Parse (strs.get ⟨i, hi⟩) = (v, none) →
        enum.Format v = .ok (strs.get ⟨i, hi⟩, none)) := by
  have hF := Format_uint_of_lt strs hlen i hi
  have hP := Parse_get strs hlen hnd i hi
  refine ⟨strs, UintEnum_of_nodup strs hnd, hF, hP, ?_, ?_⟩
  · intro s hs
    rw [hF] at hs
    simp only [Except.ok.injEq, Prod.mk.injEq, and_true] at hs
    rw [← hs]
    exact hP
  · intro v hv
    rw [hP] at hv
    simp only [Prod.mk.injEq, and_true] at hv
    rw [← hv]
    exact hF

/-- Witness of C1 on the table of the tests, at index 2. -/
theorem C1_uintEnum_round_trip_witness :
    ["naners", "apps", "tots"].length < 2 ^ (uintBits - 1) ∧
    ["naners", "apps", "tots"].Nodup ∧
    ∃ enum : uintEnum, UintEnum ["naners", "apps", "tots"] = .ok enum ∧
      enum.Format (.uint 2) = .ok ("tots", none) ∧
      enum.Parse "tots" = (.uint 2, none) ∧
      (∀ s, enum.Format (.uint 2) = .ok (s, none) → enum.Parse s = (.uint 2, none)) ∧
      (∀ v, enum.Parse "tots" = (v, none) → enum.Format v = .ok ("tots", none)) :=
  ⟨by decide, by decide,
    C1_uintEnum_round_trip ["naners", "apps", "tots"] (by decide) (by decide) 2 (by decide)⟩

/-- C3, at the failing input: on a 64-bit target the index `1 << 63` is out of
range for the three-entry table built by `UintEnum`, its conversion `int(i)`
is negative, so the guard `int(i) < len(enum)` passes and `Format` panics in
the index expression `enum[i]` instead of returning `ErrUnknown`. -/
theorem C3_Format_high_index_panics :
    UintEnum ["naners", "apps", "tots"] = .ok ["naners", "apps", "tots"] ∧
    ["naners", "apps", "tots"].length ≤ 2 ^ 63 ∧ 2 ^ 63 < 2 ^ uintBits ∧
    toInt (2 ^ 63) < 0 ∧
    uintEnum.Format ["naners", "apps", "tots"] (.uint (2 ^ 63)) =
      .error (.indexOutOfRange (2 ^ 63) 3) :=
  ⟨UintEnum_of_nodup _ (by decide), by decide, by decide, by decide,
    Format_uint_of_high _ (by decide) _ (by decide) (by decide)⟩

/-- C4, at the failing input: the wrapper built by
`UintEnumDefault(0, {"invalid", "go", "stop", "potato"})` panics in
`Format(uint(1 << 63))` instead of returning the default string "invalid". -/
theorem C4_Default_Format_high_index_panics :
    ∃ d : uintEnumDefault, UintEnumDefault 0 ["invalid", "go", "stop", "potato"] = .ok d ∧
      2 ^ 63 < 2 ^ uintBits ∧
      d.Format (.uint (2 ^ 63)) = .error (.indexOutOfRange (2 ^ 63) 4) := by
  refine ⟨_, UintEnumDefault_of_nodup 0 _ (by decide) (by decide), by decide, ?_⟩
  unfold uintEnumDefault.Format
  rw [Format_uint_of_high _ (by decide) _ (by decide) (by decide)]
  rfl

/-- C5, at the failing input: `UintEnumDefault(1 << 63, strs)` completes
construction for the empty list and for the two-entry list of the tests,
although `1 << 63` is not an index of either: `int(invalid)` is negative and
passes the guard `int(invalid) < len(m)`. -/
theorem C5_UintEnumDefault_high_default_builds :
    2 ^ 63 < 2 ^ uintBits ∧ toInt (2 ^ 63) < 0 ∧
    UintEnumDefault (2 ^ 63) [] = .ok { invalid := 2 ^ 63, toUintEnum := [] } ∧
    ¬ 2 ^ 63 < ["abc", "def"].length ∧
    UintEnumDefault (2 ^ 63) ["abc", "def"] =
      .ok { invalid := 2 ^ 63, toUintEnum := ["abc", "def"] } :=
  ⟨by decide, by decide, UintEnumDefault_of_nodup _ _ (by decide) (by decide), by decide,
    UintEnumDefault_of_nodup _ _ (by decide) (by decide)⟩

/-- C6: `UintEnum(strs)` panics exactly when some string occurs at two
distinct positions of `strs`; when no string does, it returns an enum whose
table equals `strs`. -/
theorem C6_UintEnum_panics_iff_duplicate (strs : List String) :
    ((∃ p, UintEnum strs = .error p) ↔
      ∃ i j : Nat, i < j ∧ j < strs.length ∧ strs[i]? = strs[j]?) ∧
    ((¬ ∃ i j : Nat, i < j ∧ j < strs.length ∧ strs[i]? = strs[j]?) →
      UintEnum strs = .ok strs) := by
  have hiff : strs.Nodup ↔ ¬ ∃ i j : Nat, i < j ∧ j < strs.length ∧ strs[i]? = strs[j]? := by
    rw [List.nodup_iff_getElem?_ne_getElem?]
    constructor
    · rintro h ⟨i, j, hij, hj, he⟩
      exact h i j hij hj he
    · intro h i j hij hj he
      exact h ⟨i, j, hij, hj, he⟩
  constructor
  · constructor
    · rintro ⟨p, hp⟩
      by_contra hno
      rw [UintEnum_of_nodup strs (hiff.2 hno)] at hp
      cases hp
    · intro hdup
      exact ⟨_, UintEnum_of_not_nodup strs (fun hnd => hiff.1 hnd hdup)⟩
  · intro hno
    exact UintEnum_of_nodup strs (hiff.2 hno)

/-- C10: for a wrapper `d` built by `UintEnumDefault(invalid, strs)` and a
string `s`, `d.Parse(s)` is the `uint` index `i` with `strs[i] = s` when `s`
occurs in `strs`, and the `uint` value `invalid` otherwise. -/
theorem C10_uintEnumDefault_Parse (invalid : Nat) (strs : List String) (d : uintEnumDefault)
    (hlen : strs.length < 2 ^ (uintBits - 1))
    (hd : UintEnumDefault invalid strs = .ok d) (s : String) :
    (∀ i : Nat, strs[i]? = some s → d.Parse s = .uint i) ∧
    (s ∉ strs → d.Parse s = .uint invalid) := by
  obtain ⟨hnd, _, rfl⟩ := UintEnumDefault_eq_ok invalid strs d hd
  constructor
  · intro i hi
    obtain ⟨hlt, hget⟩ := List.getElem?_eq_some.1 hi
    have hP := Parse_get strs hlen hnd i hlt
    have hget2 : strs.get ⟨i, hlt⟩ = s := hget
    rw [hget2] at hP
    simp only [uintEnumDefault.Parse, hP]
    rfl
  · intro hs
    simp only [uintEnumDefault.Parse, uintEnum.Parse, parseFrom_of_not_mem s strs 0 hs]
    rfl

/-- Witness of C10 on the wrapper of the tests and the string "stop". -/
theorem C10_uintEnumDefault_Parse_witness :
    ["invalid", "go", "stop", "potato"].length < 2 ^ (uintBits - 1) ∧
    UintEnumDefault 0 ["invalid", "go", "stop", "potato"] =
      .ok { invalid := 0, toUintEnum := ["invalid", "go", "stop", "potato"] } ∧
    (∀ i : Nat, ["invalid", "go", "stop", "potato"][i]? = some "stop" →
      uintEnumDefault.Parse { invalid := 0, toUintEnum := ["invalid", "go", "stop", "potato"] }
        "stop" = .uint i) ∧
    ("stop" ∉ ["invalid", "go", "stop", "potato"] →
      uintEnumDefault.Parse { invalid := 0, toUintEnum := ["invalid", "go", "stop", "potato"] }
        "stop" = .uint 0) :=
  ⟨by decide, UintEnumDefault_of_nodup _ _ (by decide) (by decide),
    C10_uintEnumDefault_Parse 0 ["invalid", "go", "stop", "potato"] _ (by decide)
      (UintEnumDefault_of_nodup _ _ (by decide) (by decide)) "stop"⟩

/-! ## Lemmas on the associative enum -/

theorem mapGet_isSome_iff {κ ν : Type} [DecidableEq κ] (m : List (κ × ν)) (k : κ) :
    (mapGet m k).isSome = true ↔ k ∈ m.map Prod.fst := by
  rw [← not_iff_not, ← mapGet_eq_none_iff]
  cases mapGet m k <;> simp

theorem mapGet_perm {κ ν : Type} [DecidableEq κ] (m visit : List (κ × ν))
    (hk : (m.map Prod.fst).Nodup) (hp : visit.Perm m) (k : κ) :
    mapGet visit k = mapGet m k := by
  have hk2 : (visit.map Prod.fst).Nodup := ((hp.map Prod.fst).nodup_iff).2 hk
  cases h : mapGet m k with
  | none =>
    rw [mapGet_eq_none_iff] at h ⊢
    exact fun h1 => h ((hp.map Prod.fst).mem_iff.1 h1)
  | some x =>
    rw [← mapGet_eq_some_of_mem m hk] at h
    rw [← mapGet_eq_some_of_mem visit hk2]
    exact hp.mem_iff.2 h

theorem invertFrom_ok_iff (m : List (Value × String)) (rev : List (String × Value)) :
    (∃ r, Map.invertFrom rev m = .ok r) ↔
      (m.map Prod.snd).Nodup ∧ ∀ s ∈ m.map Prod.snd, s ∉ rev.map Prod.fst := by
  induction m generalizing rev with
  | nil => simp [Map.invertFrom]
  | cons e rest ih =>
    obtain ⟨v, str⟩ := e
    by_cases h : (mapGet rev str).isSome = true
    · simp only [Map.invertFrom, if_pos h, List.map_cons, List.mem_cons, forall_eq_or_imp]
      rw [mapGet_isSome_iff] at h
      constructor
      · rintro ⟨r, hr⟩; cases hr
      · rintro ⟨_, h1, _⟩; exact absurd h h1
    · simp only [Map.invertFrom, if_neg h, List.map_cons, List.nodup_cons, List.mem_cons,
        forall_eq_or_imp]
      rw [mapGet_isSome_iff] at h
      rw [ih, keys_mapSet, if_neg h]
      constructor
      · rintro ⟨h1, h2⟩
        refine ⟨⟨fun h3 => ?_, h1⟩, h, fun s hs hs2 => ?_⟩
        · exact h2 str h3 (by simp)
        · exact h2 s hs (by simp [hs2])
      · rintro ⟨⟨h1, h2⟩, _, h4⟩
        refine ⟨h2, fun s hs hs2 => ?_⟩
        rw [List.mem_append, List.mem_singleton] at hs2
        rcases hs2 with hs2 | hs2
        · exact h4 s hs hs2
        · exact h1 (hs2 ▸ hs)

theorem invert_ok_iff (m : Map) : (∃ r, m.invert = .ok r) ↔ (m.map Prod.snd).Nodup := by
  unfold Map.invert
  rw [invertFrom_ok_iff]
  simp

theorem EnumMap_ok_iff (m : Map) : (∃ enum, EnumMap m = .ok enum) ↔ (m.map Prod.snd).Nodup := by
  rw [← invert_ok_iff]
  unfold EnumMap
  cases h : m.invert with
  | error err => simp
  | ok rev => simp

theorem EnumMap_error_iff (m : Map) : (∃ p, EnumMap m = .error p) ↔ ¬ (m.map Prod.snd).Nodup := by
  rw [← EnumMap_ok_iff]
  cases EnumMap m with
  | error p => simp
  | ok enum => simp

theorem EnumMap_eq_ok (m : Map) (enum : enumMap) (h : EnumMap m = .ok enum) : enum.m = m := by
  unfold EnumMap at h
  cases h2 : m.invert with
  | error err => rw [h2] at h; cases h
  | ok rev =>
    rw [h2] at h
    simp only [Except.ok.injEq] at h
    rw [← h]

theorem sharesString_iff (m : Map) (hk : (m.map Prod.fst).Nodup) :
    m.sharesString ↔ ¬ (m.map Prod.snd).Nodup := by
  rw [List.nodup_map_iff_inj_on (List.Nodup.of_map Prod.fst hk)]
  unfold Map.sharesString
  constructor
  · rintro ⟨v1, v2, s, hne, h1, h2⟩ hinj
    rw [← mapGet_eq_some_of_mem m hk] at h1 h2
    have := hinj (v1, s) h1 (v2, s) h2 rfl
    exact hne (congrArg Prod.fst this)
  · intro hinj
    push_neg at hinj
    obtain ⟨⟨v1, s1⟩, h1, ⟨v2, s2⟩, h2, hs, hne⟩ := hinj
    simp only at hs
    subst hs
    refine ⟨v1, v2, s1, fun h => hne (by rw [h]), ?_, ?_⟩
    · exact (mapGet_eq_some_of_mem m hk v1 s1).1 h1
    · exact (mapGet_eq_some_of_mem m hk v2 s1).1 h2

theorem scan_of_not_mem (str : String) (m : List (Value × String))
    (h : str ∉ m.map Prod.snd) : enumMap.scan str m = (.str "", some .ErrUnknown) := by
  induction m with
  | nil => rfl
  | cons e rest ih =>
    obtain ⟨v, vstr⟩ := e
    simp only [List.map_cons, List.mem_cons, not_or] at h
    have hs : ¬ vstr = str := fun h1 => h.1 h1.symm
    simp only [enumMap.scan, if_neg hs]
    exact ih h.2

theorem scan_of_mem (str : String) (v : Value) (m : List (Value × String))
    (hnd : (m.map Prod.snd).Nodup) (h : (v, str) ∈ m) : enumMap.scan str m = (v, none) := by
  induction m with
  | nil => simp at h
  | cons e rest ih =>
    obtain ⟨v0, vstr⟩ := e
    simp only [List.map_cons, List.nodup_cons] at hnd
    rcases List.mem_cons.1 h with h1 | h1
    · simp only [Prod.mk.injEq] at h1
      simp [enumMap.scan, h1.1, h1.2]
    · have hs : ¬ vstr = str := by
        intro h2
        exact hnd.1 (h2 ▸ List.mem_map_of_mem Prod.snd h1)
      simp only [enumMap.scan, if_neg hs]
      exact ih hnd.2 h1

theorem Map_read_of_comparable (m : Map) (v : Value) (hc : v.comparable = true) :
    Map.read m v = .ok (mapGet m v) := by
  simp only [Map.read, hc, if_true]

theorem Map_read_of_not_comparable (m : Map) (v : Value) (hc : v.comparable = false) :
    Map.read m v = .error (.unhashable v.typeName) := by
  simp only [Map.read, hc, Bool.false_eq_true, if_false]

theorem comparable_of_get (m : Map) (hc : ∀ k ∈ m.map Prod.fst, Value.comparable k = true)
    (v : Value) (s : String) (h : mapGet m v = some s) : v.comparable = true := by
  apply hc
  by_contra hv
  rw [← mapGet_eq_none_iff, h] at hv
  cases hv

theorem Format_of_get (enum : enumMap) (v : Value) (s : String) (hc : v.comparable = true)
    (h : mapGet enum.m v = some s) : enum.Format v = .ok (s, none) := by
  simp only [enumMap.Format, Map_read_of_comparable enum.m v hc, h]

theorem Format_of_get_none (enum : enumMap) (v : Value) (hc : v.comparable = true)
    (h : mapGet enum.m v = none) : enum.Format v = .ok ("", some .ErrUnknown) := by
  simp only [enumMap.Format, Map_read_of_comparable enum.m v hc, h]

theorem Format_of_not_comparable (enum : enumMap) (v : Value) (hc : v.comparable = false) :
    enum.Format v = .error (.unhashable v.typeName) := by
  simp only [enumMap.Format, Map_read_of_not_comparable enum.m v hc]

theorem Parse_revisit_of_get (m visit : Map) (rev : List (String × Value))
    (hk : (m.map Prod.fst).Nodup) (hs : (m.map Prod.snd).Nodup) (hp : visit.Perm m)
    (v : Value) (s : String) (h : mapGet m v = some s) :
    (enumMap.revisit { m := m, rev := rev } visit).Parse s = (v, none) := by
  unfold enumMap.Parse enumMap.revisit
  apply scan_of_mem
  · exact ((hp.map Prod.snd).nodup_iff).2 hs
  · exact hp.mem_iff.2 ((mapGet_eq_some_of_mem m hk v s).2 h)

theorem Parse_revisit_of_absent (m visit : Map) (rev : List (String × Value))
    (hk : (m.map Prod.fst).Nodup) (hp : visit.Perm m)
    (s : String) (h : ∀ v, mapGet m v ≠ some s) :
    (enumMap.revisit { m := m, rev := rev } visit).Parse s = (.str "", some .ErrUnknown) := by
  unfold enumMap.Parse enumMap.revisit
  apply scan_of_not_mem
  intro hmem
  obtain ⟨⟨v, s2⟩, h1, h2⟩ := List.mem_map.1 hmem
  simp only at h2
  subst h2
  exact h v ((mapGet_eq_some_of_mem m hk v s2).1 (hp.mem_iff.1 h1))

theorem strings_nodup_of_unique (m : Map) (hk : (m.map Prod.fst).Nodup)
    (hu : ∀ v1 v2 : Value, ∀ s : String,
      mapGet m v1 = some s → mapGet m v2 = some s → v1 = v2) :
    (m.map Prod.snd).Nodup := by
  by_contra hnd
  obtain ⟨v1, v2, s, hne, h1, h2⟩ := (sharesString_iff m hk).2 hnd
  exact hne (hu v1 v2 s h1 h2)

theorem unique_of_strings_nodup (m : Map) (hk : (m.map Prod.fst).Nodup)
    (hs : (m.map Prod.snd).Nodup) (v1 v2 : Value) (s : String)
    (h1 : mapGet m v1 = some s) (h2 : mapGet m v2 = some s) : v1 = v2 := by
  by_contra hne
  exact (sharesString_iff m hk).1 ⟨v1, v2, s, hne, h1, h2⟩ hs

theorem EnumMap_of_strings_nodup (m : Map) (hs : (m.map Prod.snd).Nodup) :
    ∃ rev, EnumMap m = .ok { m := m, rev := rev } := by
  obtain ⟨enum, he⟩ := (EnumMap_ok_iff m).2 hs
  have hm := EnumMap_eq_ok m enum he
  obtain ⟨em, rev⟩ := enum
  simp only at hm
  subst hm
  exact ⟨rev, he⟩

theorem EnumMapDefault_eq_ok (deflt : Value) (m : Map) (d : enumMapDefault)
    (h : EnumMapDefault deflt m = .ok d) :
    ∃ sd rev, mapGet m deflt = some sd ∧ (m.map Prod.snd).Nodup ∧
      d = { deflt := deflt, m := { m := m, rev := rev } } := by
  unfold EnumMapDefault at h
  cases hc : deflt.comparable with
  | false =>
    rw [Map_read_of_not_comparable m deflt hc] at h
    cases h
  | true =>
    rw [Map_read_of_comparable m deflt hc] at h
    cases hg : mapGet m deflt with
    | none => rw [hg] at h; cases h
    | some sd =>
      rw [hg] at h
      by_cases hs : (m.map Prod.snd).Nodup
      · obtain ⟨rev, he⟩ := EnumMap_of_strings_nodup m hs
        rw [he] at h
        simp only [Except.ok.injEq] at h
        exact ⟨sd, rev, rfl, hs, h.symm⟩
      · obtain ⟨p, hp⟩ := (EnumMap_error_iff m).2 hs
        rw [hp] at h
        cases h

theorem EnumMapDefault_comparable (deflt : Value) (m : Map) (d : enumMapDefault)
    (h : EnumMapDefault deflt m = .ok d) : deflt.comparable = true := by
  cases hc : deflt.comparable with
  | true => rfl
  | false =>
    unfold EnumMapDefault at h
    rw [Map_read_of_not_comparable m deflt hc] at h
    cases h

theorem EnumMapDefault_of_nodup (deflt : Value) (m : Map) (sd : String)
    (hc : deflt.comparable = true)
    (hg : mapGet m deflt = some sd) (hs : (m.map Prod.snd).Nodup) :
    ∃ rev, EnumMapDefault deflt m = .ok { deflt := deflt, m := { m := m, rev := rev } } := by
  obtain ⟨rev, he⟩ := EnumMap_of_strings_nodup m hs
  exact ⟨rev, by simp only [EnumMapDefault, Map_read_of_comparable m deflt hc, hg, he]⟩

/-! ## Associative enum: claims -/

/-- C2: for a map `m` (its keys distinct and of comparable type, as in every
Go map) in which no two distinct keys share a string and a pair `(v, s)` with
`m[v] = s`, `EnumMap(m)` returns an enum whose `Format(v)`
succeeds with `s` and whose `Parse(s)` succeeds with `v`, in whatever order
`Parse` visits the entries; so parsing what `Format` returned gives back `v`
and formatting what `Parse` returned gives back `s`. -/
theorem C2_enumMap_round_trip (m : Map) (hk : (m.map Prod.fst).Nodup)
    (hc : ∀ k ∈ m.map Prod.fst, Value.comparable k = true)
    (hu : ∀ v1 v2 : Value, ∀ s : String,
      mapGet m v1 = some s → mapGet m v2 = some s → v1 = v2)
    (v : Value) (s : String) (hvs : mapGet m v = some s) :
    ∃ enum : enumMap, EnumMap m = .ok enum ∧
      enum.Format v = .ok (s, none) ∧
      ∀ visit : Map, visit.Perm m →
        (enum.revisit visit).Parse s = (v, none) ∧
        (∀ s2, enum.Format v = .ok (s2, none) →
          (enum.revisit visit).Parse s2 = (v, none)) ∧
        (∀ v2, (enum.revisit visit).Parse s = (v2, none) →
          enum.Format v2 = .ok (s, none)) := by
  have hs := strings_nodup_of_unique m hk hu
  obtain ⟨rev, he⟩ := EnumMap_of_strings_nodup m hs
  have hF : enumMap.Format { m := m, rev := rev } v = .ok (s, none) :=
    Format_of_get _ v s (comparable_of_get m hc v s hvs) hvs
  refine ⟨_, he, hF, fun visit hp => ?_⟩
  have hP := Parse_revisit_of_get m visit rev hk hs hp v s hvs
  refine ⟨hP, ?_, ?_⟩
  · intro s2 h2
    rw [hF] at h2
    simp only [Except.ok.injEq, Prod.mk.injEq, and_true] at h2
    rw [← h2]
    exact hP
  · intro v2 h2
    rw [hP] at h2
    simp only [Prod.mk.injEq, and_true] at h2
    rw [← h2]
    exact hF

/-- Witness of C2 on two entries of the REST table of the tests. -/
theorem C2_enumMap_round_trip_witness :
    ([(Value.record "REST" ["http://example.com", "POST", "/puppy"], "Puppy CREATE"),
      (Value.record "REST" ["http://example.com", "DELETE", "/puppy/:id"],
        "Puppy DELETE")].map Prod.fst).Nodup ∧
    (∀ k ∈ [(Value.record "REST" ["http://example.com", "POST", "/puppy"], "Puppy CREATE"),
      (Value.record "REST" ["http://example.com", "DELETE", "/puppy/:id"],
        "Puppy DELETE")].map Prod.fst, Value.comparable k = true) ∧
    ∃ enum : enumMap,
      EnumMap [(Value.record "REST" ["http://example.com", "POST", "/puppy"], "Puppy CREATE"),
        (Value.record "REST" ["http://example.com", "DELETE", "/puppy/:id"],
          "Puppy DELETE")] = .ok enum ∧
      enum.Format (Value.record "REST" ["http://example.com", "DELETE", "/puppy/:id"]) =
        .ok ("Puppy DELETE", none) ∧
      enum.Parse "Puppy DELETE" =
        (Value.record "REST" ["http://example.com", "DELETE", "/puppy/:id"], none) := by
  have hk : ([(Value.record "REST" ["http://example.com", "POST", "/puppy"], "Puppy CREATE"),
      (Value.record "REST" ["http://example.com", "DELETE", "/puppy/:id"],
        "Puppy DELETE")].map Prod.fst).Nodup := by decide
  have hc : ∀ k ∈ [(Value.record "REST" ["http://example.com", "POST", "/puppy"],
      "Puppy CREATE"), (Value.record "REST" ["http://example.com", "DELETE", "/puppy/:id"],
        "Puppy DELETE")].map Prod.fst, Value.comparable k = true := by decide
  obtain ⟨enum, he, hF, hP⟩ := C2_enumMap_round_trip _ hk hc
    (unique_of_strings_nodup _ hk (by decide))
    (Value.record "REST" ["http://example.com", "DELETE", "/puppy/:id"]) "Puppy DELETE"
    (by decide)
  refine ⟨hk, hc, enum, he, hF, ?_⟩
  have hm := EnumMap_eq_ok _ enum he
  have h2 := (hP _ (List.Perm.refl _)).1
  unfold enumMap.Parse enumMap.revisit at h2
  unfold enumMap.Parse
  rw [hm]
  exact h2

/-- C7: for a map `m`, `EnumMap(m)` panics exactly when two distinct keys of
`m` have the same string, and whether it panics is the same for every order
in which `invert` visits the entries. -/
theorem C7_EnumMap_panics_iff_shared_string (m : Map) (hk : (m.map Prod.fst).Nodup) :
    ((∃ p, EnumMap m = .error p) ↔
      ∃ v1 v2 : Value, ∃ s : String,
        v1 ≠ v2 ∧ mapGet m v1 = some s ∧ mapGet m v2 = some s) ∧
    (∀ visit : Map, visit.Perm m →
      ((∃ p, EnumMap visit = .error p) ↔ ∃ p, EnumMap m = .error p)) := by
  constructor
  · rw [EnumMap_error_iff]
    exact (sharesString_iff m hk).symm
  · intro visit hp
    rw [EnumMap_error_iff, EnumMap_error_iff, (hp.map Prod.snd).nodup_iff]

/-- Witness of C7 on the duplicate table of the tests, which panics. -/
theorem C7_EnumMap_panics_iff_shared_string_witness :
    ([(Value.int 0, "abc"), (Value.int 1, "abc")].map Prod.fst).Nodup ∧
    (∃ p, EnumMap [(Value.int 0, "abc"), (Value.int 1, "abc")] = .error p) ∧
    (∃ p, EnumMap [(Value.int 1, "abc"), (Value.int 0, "abc")] = .error p) := by
  have h := C7_EnumMap_panics_iff_shared_string [(Value.int 0, "abc"), (Value.int 1, "abc")]
    (by decide)
  have h1 : ∃ p, EnumMap [(Value.int 0, "abc"), (Value.int 1, "abc")] = .error p :=
    h.1.2 ⟨Value.int 0, Value.int 1, "abc", by decide, by decide, by decide⟩
  exact ⟨by decide, h1, (h.2 _ (List.Perm.swap _ _ _)).2 h1⟩

/-- C8: for a map `m` (its keys distinct and of comparable type, as in every
Go map) and a value `deflt` of any type, `EnumMapDefault(deflt, m)`
completes construction exactly when `deflt` is a key of `m` and no two
distinct keys of `m` share a string, and panics in every other case. -/
theorem C8_EnumMapDefault_builds_iff (deflt : Value) (m : Map)
    (hk : (m.map Prod.fst).Nodup)
    (hc : ∀ k ∈ m.map Prod.fst, Value.comparable k = true) :
    ((∃ d, EnumMapDefault deflt m = .ok d) ↔
      (∃ sd, mapGet m deflt = some sd) ∧
        ¬ ∃ v1 v2 : Value, ∃ s : String,
          v1 ≠ v2 ∧ mapGet m v1 = some s ∧ mapGet m v2 = some s) ∧
    ((∃ p, EnumMapDefault deflt m = .error p) ↔
      ¬ ((∃ sd, mapGet m deflt = some sd) ∧
        ¬ ∃ v1 v2 : Value, ∃ s : String,
          v1 ≠ v2 ∧ mapGet m v1 = some s ∧ mapGet m v2 = some s)) := by
  have hok : (∃ d, EnumMapDefault deflt m = .ok d) ↔
      (∃ sd, mapGet m deflt = some sd) ∧
        ¬ ∃ v1 v2 : Value, ∃ s : String,
          v1 ≠ v2 ∧ mapGet m v1 = some s ∧ mapGet m v2 = some s := by
    constructor
    · rintro ⟨d, hd⟩
      obtain ⟨sd, rev, hg, hs, _⟩ := EnumMapDefault_eq_ok deflt m d hd
      exact ⟨⟨sd, hg⟩, fun hsh => (sharesString_iff m hk).1 hsh hs⟩
    · rintro ⟨⟨sd, hg⟩, hsh⟩
      have hs : (m.map Prod.snd).Nodup := by
        by_contra hnd
        exact hsh ((sharesString_iff m hk).2 hnd)
      obtain ⟨rev, he⟩ := EnumMapDefault_of_nodup deflt m sd
        (comparable_of_get m hc deflt sd hg) hg hs
      exact ⟨_, he⟩
  refine ⟨hok, ?_⟩
  rw [← hok]
  cases EnumMapDefault deflt m with
  | error p => simp
  | ok d => simp

/-- Witness of C8 on the table of the tests with the absent default `2`,
which panics. -/
theorem C8_EnumMapDefault_builds_iff_witness :
    ([(Value.int 0, "abc"), (Value.int 1, "def")].map Prod.fst).Nodup ∧
    (∀ k ∈ [(Value.int 0, "abc"), (Value.int 1, "def")].map Prod.fst,
      Value.comparable k = true) ∧
    (∃ d, EnumMapDefault (Value.int 0) [(Value.int 0, "abc"), (Value.int 1, "def")] = .ok d) ∧
    (∃ p, EnumMapDefault (Value.int 2) [(Value.int 0, "abc"), (Value.int 1, "def")] =
      .error p) := by
  refine ⟨by decide, by decide, ?_, ?_⟩
  · obtain ⟨rev, he⟩ := EnumMapDefault_of_nodup (Value.int 0)
      [(Value.int 0, "abc"), (Value.int 1, "def")] "abc" rfl (by decide) (by decide)
    exact ⟨_, he⟩
  · have h := C8_EnumMapDefault_builds_iff (Value.int 2)
      [(Value.int 0, "abc"), (Value.int 1, "def")] (by decide) (by decide)
    apply h.2.2
    rintro ⟨⟨sd, hsd⟩, _⟩
    have hnone : mapGet [(Value.int 0, "abc"), (Value.int 1, "def")] (Value.int 2) = none := by
      decide
    rw [hnone] at hsd
    cases hsd

/-- The wrapper built by `EnumMapDefault(deflt, m)` on the values of
comparable type, and on the others: `Format` gives `m[v]` for a key and
`m[deflt]` for a comparable value that is no key, and panics on a value of
non-comparable type; `Parse` gives the key of the string when there is one
and `deflt` otherwise, in whatever order it visits the entries. -/
theorem enumMapDefault_Format_Parse (deflt : Value) (m : Map) (d : enumMapDefault)
    (hk : (m.map Prod.fst).Nodup) (hd : EnumMapDefault deflt m = .ok d) :
    (∀ v : Value, ∀ s : String, v.comparable = true → mapGet m v = some s →
      d.Format v = .ok s) ∧
    (∀ v : Value, v.comparable = true → mapGet m v = none →
      ∃ sd, mapGet m deflt = some sd ∧ d.Format v = .ok sd) ∧
    (∀ v : Value, v.comparable = false → d.Format v = .error (.unhashable v.typeName)) ∧
    (∀ visit : Map, visit.Perm m → ∀ s : String,
      (∀ v : Value, mapGet m v = some s → (d.revisit visit).Parse s = v) ∧
      ((∀ v : Value, mapGet m v ≠ some s) → (d.revisit visit).Parse s = deflt)) := by
  have hcd := EnumMapDefault_comparable deflt m d hd
  obtain ⟨sd, rev, hg, hs, rfl⟩ := EnumMapDefault_eq_ok deflt m d hd
  refine ⟨?_, ?_, ?_, ?_⟩
  · intro v s hc hv
    simp only [enumMapDefault.Format, Format_of_get { m := m, rev := rev } v s hc hv]
  · intro v hc hv
    refine ⟨sd, hg, ?_⟩
    simp only [enumMapDefault.Format, Format_of_get_none { m := m, rev := rev } v hc hv,
      Format_of_get { m := m, rev := rev } deflt sd hcd hg]
  · intro v hc
    simp only [enumMapDefault.Format, Format_of_not_comparable { m := m, rev := rev } v hc]
  · intro visit hp s
    constructor
    · intro v hv
      simp only [enumMapDefault.Parse, enumMapDefault.revisit,
        Parse_revisit_of_get m visit rev hk hs hp v s hv]
    · intro hv
      simp only [enumMapDefault.Parse, enumMapDefault.revisit,
        Parse_revisit_of_absent m visit rev hk hp s hv]

/-- C9, at the failing input: the wrapper built by
`EnumMapDefault(0, Map{0: "abc", 1: "def"})` panics in `Format([]int{1})`,
the map read `enum.m[v]` of the base `Format` hashing a value of
non-comparable type, instead of returning the string "abc" of the default
for a value that is no key. -/
theorem C9_Default_Format_unhashable_panics :
    ∃ d : enumMapDefault,
      EnumMapDefault (.int 0) [(.int 0, "abc"), (.int 1, "def")] = .ok d ∧
      mapGet [(Value.int 0, "abc"), (Value.int 1, "def")] (.slice [1]) = none ∧
      mapGet [(Value.int 0, "abc"), (Value.int 1, "def")] (.int 0) = some "abc" ∧
      d.Format (.slice [1]) = .error (.unhashable "[]int") := by
  obtain ⟨rev, hd⟩ := EnumMapDefault_of_nodup (.int 0)
    [(.int 0, "abc"), (.int 1, "def")] "abc" rfl (by decide) (by decide)
  refine ⟨_, hd, by decide, by decide, ?_⟩
  simp only [enumMapDefault.Format,
    Format_of_not_comparable
      { m := [(Value.int 0, "abc"), (Value.int 1, "def")], rev := rev } (.slice [1]) rfl]
  rfl

/-! ## enumstr.go and the remaining claims -/

/-- C11: for every sequential enum and every value `v` whose dynamic type is
not `uint`, `uintEnum.Format(v)` returns the error "expected uint but received
<type of v>", which is not `ErrUnknown`, whatever the table holds. -/
theorem C11_Format_type_mismatch (enum : uintEnum) (v : Value)
    (hv : ∀ n : Nat, v ≠ .uint n) :
    enum.Format v =
      .ok ("", some (.errorf "expected uint but received %T" v.typeName)) ∧
    GoError.errorf "expected uint but received %T" v.typeName ≠ .ErrUnknown := by
  refine ⟨?_, fun h => by cases h⟩
  cases v with
  | uint n => exact absurd rfl (hv n)
  | int i => rfl
  | str t => rfl
  | record typ fields => rfl
  | slice elems => rfl

/-- Witness of C11 on the call of `TestUintEnumBadType`. -/
theorem C11_Format_type_mismatch_witness :
    (∀ n : Nat, Value.str "not an int" ≠ .uint n) ∧
    uintEnum.Format ["abc", "def"] (.str "not an int") =
      .ok ("", some (.errorf "expected uint but received %T" "string")) ∧
    GoError.errorf "expected uint but received %T" "string" ≠ .ErrUnknown :=
  ⟨fun _ h => (by cases h),
    C11_Format_type_mismatch ["abc", "def"] (.str "not an int") (fun _ h => (by cases h))⟩

/-- C12: for every `Enum`, value and fallback string, `String` returns the
string of `Format` when `Format` returns no error and the fallback when it
returns an error; `String` panics only when `Format` does. -/
theorem C12_String_fallback (e : Enum) (v : Value) (fallback : String) :
    (∀ s : String, e.Format v = .ok (s, none) → enumString e v fallback = .ok s) ∧
    (∀ (s : String) (err : GoError), e.Format v = .ok (s, some err) →
      enumString e v fallback = .ok fallback) ∧
    (∀ p : Panic, enumString e v fallback = .error p ↔ e.Format v = .error p) := by
  unfold enumString
  refine ⟨?_, ?_, ?_⟩
  · intro s h
    rw [h]
    simp
  · intro s err h
    rw [h]
    simp
  · intro p
    cases h : e.Format v with
    | error q => simp
    | ok r =>
      obtain ⟨str, err⟩ := r
      cases err <;> simp

/-- Example of C12 on the table of the tests: a mapped value gives its string
and an unmapped one the fallback. -/
theorem C12_String_fallback_witness :
    enumString (uintEnum.toEnum ["naners", "apps", "tots"]) (.uint 0) "wut?" = .ok "naners" ∧
    enumString (uintEnum.toEnum ["naners", "apps", "tots"]) (.uint 5) "wut?" = .ok "wut?" :=
  ⟨(C12_String_fallback (uintEnum.toEnum ["naners", "apps", "tots"]) (.uint 0) "wut?").1
      "naners" (Format_uint_of_lt ["naners", "apps", "tots"] (by decide) 0 (by decide)),
    (C12_String_fallback (uintEnum.toEnum ["naners", "apps", "tots"]) (.uint 5) "wut?").2.1
      "" .ErrUnknown (Format_uint_of_ge ["naners", "apps", "tots"] 5 (by decide) (by decide))⟩

/-- C13: for every `Enum` and value, with a `json.Marshal` that has no failing
case on a string, `MarshalJSON` returns `(nil, err)` with the very error of
`Format` when `Format` returns one, and the encoding of the formatted string
with a nil error otherwise; so it returns an error exactly when `Format`
does, and it panics only when `Format` does. -/
theorem C13_MarshalJSON (json : Json) (e : Enum) (v : Value)
    (hM : ∀ s : String, (json.Marshal s).2 = none) :
    (∀ (s : String) (err : GoError), e.Format v = .ok (s, some err) →
      MarshalJSON json e v = .ok ([], some err)) ∧
    (∀ s : String, e.Format v = .ok (s, none) →
      MarshalJSON json e v = .ok ((json.Marshal s).1, none)) ∧
    ((∃ (b : Bytes) (err : GoError), MarshalJSON json e v = .ok (b, some err)) ↔
      ∃ (s : String) (err : GoError), e.Format v = .ok (s, some err)) ∧
    (∀ pn : Panic, MarshalJSON json e v = .error pn ↔ e.Format v = .error pn) := by
  unfold MarshalJSON
  refine ⟨?_, ?_, ?_, ?_⟩
  · intro s err h
    rw [h]
    simp
  · intro s h
    rw [h]
    simp only [ne_eq, not_true_eq_false, if_false]
    rw [← hM s]
  · cases h : e.Format v with
    | error q => simp
    | ok r =>
      obtain ⟨str, err⟩ := r
      cases err with
      | none =>
        constructor
        · rintro ⟨b, err, hb⟩
          simp only [ne_eq, not_true_eq_false, if_false, Except.ok.injEq] at hb
          have h2 := hM str
          rw [hb] at h2
          cases h2
        · rintro ⟨s, err, h2⟩
          cases h2
      | some err0 =>
        constructor
        · rintro _
          exact ⟨str, err0, rfl⟩
        · rintro _
          exact ⟨[], err0, by simp⟩
  · intro pn
    cases h : e.Format v with
    | error q => simp
    | ok r =>
      obtain ⟨str, err⟩ := r
      cases err <;> simp

/-- Witness of C13 on the table of the tests: the unmapped value 100 gives
`(nil, ErrUnknown)`. -/
theorem C13_MarshalJSON_witness :
    (∀ s : String, (testJson.Marshal s).2 = none) ∧
    MarshalJSON testJson (uintEnum.toEnum ["naners", "apps", "tots"]) (.uint 100) =
      .ok ([], some .ErrUnknown) :=
  ⟨fun _ => rfl,
    (C13_MarshalJSON testJson (uintEnum.toEnum ["naners", "apps", "tots"]) (.uint 100)
      (fun _ => rfl)).1 "" .ErrUnknown
      (Format_uint_of_ge ["naners", "apps", "tots"] 100 (by decide) (by decide))⟩

theorem reflectSet_of_assignable (typ : GoType) (old v : Value)
    (h : assignable v typ = true) : reflectSet (.pointer typ old) v = .ok (.pointer typ v) := by
  simp only [reflectSet, h, if_true]

theorem reflectSet_of_not_assignable (val : Target) (v : Value)
    (h : ∀ (typ : GoType) (old : Value), val = .pointer typ old → assignable v typ = false) :
    ∃ pn, reflectSet val v = .error pn := by
  cases val with
  | pointer typ old =>
    have h1 := h typ old rfl
    exact ⟨.reflect "value is not assignable",
      by simp only [reflectSet, h1, Bool.false_eq_true, if_false]⟩
  | notSettable t => exact ⟨_, rfl⟩

theorem UnmarshalJSON_of_decode_error (json : Json) (e : Enum) (p : Bytes) (val : Target)
    (err : GoError) (h : json.Unmarshal p = .error err) :
    UnmarshalJSON json e p val = .ok (some err, val) := by
  simp only [UnmarshalJSON, h]

theorem UnmarshalJSON_of_parse_error (json : Json) (e : Enum) (p : Bytes) (val : Target)
    (s : String) (v : Value) (err : GoError) (h : json.Unmarshal p = .ok s)
    (hp : e.Parse s = .ok (v, some err)) :
    UnmarshalJSON json e p val = .ok (some err, val) := by
  simp [UnmarshalJSON, h, hp]

theorem UnmarshalJSON_of_parse_panic (json : Json) (e : Enum) (p : Bytes) (val : Target)
    (s : String) (pn : Panic) (h : json.Unmarshal p = .ok s) (hp : e.Parse s = .error pn) :
    UnmarshalJSON json e p val = .error pn := by
  simp only [UnmarshalJSON, h, hp]

theorem UnmarshalJSON_of_set (json : Json) (e : Enum) (p : Bytes) (val val2 : Target)
    (s : String) (v : Value) (h : json.Unmarshal p = .ok s) (hp : e.Parse s = .ok (v, none))
    (hs : reflectSet val v = .ok val2) :
    UnmarshalJSON json e p val = .ok (none, val2) := by
  simp [UnmarshalJSON, h, hp, hs]

theorem UnmarshalJSON_of_set_panic (json : Json) (e : Enum) (p : Bytes) (val : Target)
    (s : String) (v : Value) (pn : Panic) (h : json.Unmarshal p = .ok s)
    (hp : e.Parse s = .ok (v, none)) (hs : reflectSet val v = .error pn) :
    UnmarshalJSON json e p val =
      .ok (some (.errorf2 "can't assign %T to %T" v.typeName val.typeName), val) := by
  simp [UnmarshalJSON, h, hp, hs]

theorem UnmarshalJSONDefault_of_decode_error (json : Json) (d : EnumDefault) (p : Bytes)
    (val : Target) (err : GoError) (h : json.Unmarshal p = .error err) :
    UnmarshalJSONDefault json d p val = .ok (some err, val) := by
  simp only [UnmarshalJSONDefault, h]

theorem UnmarshalJSONDefault_of_set (json : Json) (d : EnumDefault) (p : Bytes)
    (val val2 : Target) (s : String) (v : Value) (h : json.Unmarshal p = .ok s)
    (hp : d.Parse s = .ok v) (hs : reflectSet val v = .ok val2) :
    UnmarshalJSONDefault json d p val = .ok (none, val2) := by
  simp only [UnmarshalJSONDefault, h, hp, hs]

theorem UnmarshalJSONDefault_of_set_panic (json : Json) (d : EnumDefault) (p : Bytes)
    (val : Target) (s : String) (v : Value) (pn : Panic) (h : json.Unmarshal p = .ok s)
    (hp : d.Parse s = .ok v) (hs : reflectSet val v = .error pn) :
    UnmarshalJSONDefault json d p val =
      .ok (some (.errorf2 "can't assign %T to %T" v.typeName val.typeName), val) := by
  simp only [UnmarshalJSONDefault, h, hp, hs]

theorem UnmarshalJSON_error_unchanged (json : Json) (e : Enum) (p : Bytes) (val val2 : Target)
    (err : GoError) (h : UnmarshalJSON json e p val = .ok (some err, val2)) : val2 = val := by
  cases hd : json.Unmarshal p with
  | error derr =>
    rw [UnmarshalJSON_of_decode_error json e p val derr hd] at h
    simp only [Except.ok.injEq, Prod.mk.injEq] at h
    exact h.2.symm
  | ok s =>
    cases hp : e.Parse s with
    | error pn =>
      rw [UnmarshalJSON_of_parse_panic json e p val s pn hd hp] at h
      cases h
    | ok r =>
      obtain ⟨v, perr⟩ := r
      cases perr with
      | some perr0 =>
        rw [UnmarshalJSON_of_parse_error json e p val s v perr0 hd hp] at h
        simp only [Except.ok.injEq, Prod.mk.injEq] at h
        exact h.2.symm
      | none =>
        cases hs : reflectSet val v with
        | error pn =>
          rw [UnmarshalJSON_of_set_panic json e p val s v pn hd hp hs] at h
          simp only [Except.ok.injEq, Prod.mk.injEq] at h
          exact h.2.symm
        | ok val3 =>
          rw [UnmarshalJSON_of_set json e p val val3 s v hd hp hs] at h
          simp only [Except.ok.injEq, Prod.mk.injEq] at h
          cases h.1

theorem UnmarshalJSONDefault_error_unchanged (json : Json) (d : EnumDefault) (p : Bytes)
    (val val2 : Target) (err : GoError)
    (h : UnmarshalJSONDefault json d p val = .ok (some err, val2)) : val2 = val := by
  cases hd : json.Unmarshal p with
  | error derr =>
    rw [UnmarshalJSONDefault_of_decode_error json d p val derr hd] at h
    simp only [Except.ok.injEq, Prod.mk.injEq] at h
    exact h.2.symm
  | ok s =>
    cases hp : d.Parse s with
    | error pn =>
      simp only [UnmarshalJSONDefault, hd, hp] at h
      cases h
    | ok v =>
      cases hs : reflectSet val v with
      | error pn =>
        rw [UnmarshalJSONDefault_of_set_panic json d p val s v pn hd hp hs] at h
        simp only [Except.ok.injEq, Prod.mk.injEq] at h
        exact h.2.symm
      | ok val3 =>
        rw [UnmarshalJSONDefault_of_set json d p val val3 s v hd hp hs] at h
        simp only [Except.ok.injEq, Prod.mk.injEq] at h
        cases h.1

theorem uintEnumDefault_Parse_of_not_mem (invalid : Nat) (strs : List String) (s : String)
    (hs : s ∉ strs) :
    uintEnumDefault.Parse { invalid := invalid, toUintEnum := strs } s = .uint invalid := by
  simp only [uintEnumDefault.Parse, uintEnum.Parse, parseFrom_of_not_mem s strs 0 hs]
  rfl

theorem enumMapDefault_Parse_of_absent (deflt : Value) (m visit : Map)
    (rev : List (String × Value)) (hk : (m.map Prod.fst).Nodup) (hp : visit.Perm m)
    (s : String) (h : ∀ v, mapGet m v ≠ some s) :
    (enumMapDefault.revisit { deflt := deflt, m := { m := m, rev := rev } } visit).Parse s =
      deflt := by
  simp only [enumMapDefault.Parse, enumMapDefault.revisit,
    Parse_revisit_of_absent m visit rev hk hp s h]

theorem testJson_apps : testJson.Unmarshal [34, 97, 112, 112, 115, 34] = .ok "apps" := by
  rfl

theorem testJson_blah : testJson.Unmarshal [34, 98, 108, 97, 104, 34] = .ok "blah" := by
  rfl

theorem testJson_number :
    testJson.Unmarshal [49, 50, 51] =
      .error (.library "json: cannot unmarshal into Go value of type string") := by
  rfl

theorem fruit_Parse_apps :
    (uintEnum.toEnum ["naners", "apps", "tots"]).Parse "apps" = .ok (.uint 1, none) :=
  congrArg Except.ok (by decide : uintEnum.Parse ["naners", "apps", "tots"] "apps" = _)

theorem fruit_Parse_blah :
    (uintEnum.toEnum ["naners", "apps", "tots"]).Parse "blah" =
      .ok (.int 0, some .ErrUnknown) :=
  congrArg Except.ok (by decide : uintEnum.Parse ["naners", "apps", "tots"] "blah" = _)

theorem fruitDefault_Parse_apps :
    (uintEnumDefault.toEnumDefault
      { invalid := 0, toUintEnum := ["naners", "apps", "tots"] }).Parse "apps" =
        .ok (.uint 1) :=
  congrArg Except.ok
    (by decide : uintEnumDefault.Parse
      { invalid := 0, toUintEnum := ["naners", "apps", "tots"] } "apps" = _)

/-- C14: for every `EnumDefault` `d`, input `p` that decodes to a string `s`
and output location whose type accepts the value `d.Parse(s)`,
`UnmarshalJSONDefault` returns a nil error and leaves the location holding
`d.Parse(s)`; for the two wrappers of the package that value is the
configured default whenever `s` is not in the table. -/
theorem C14_UnmarshalJSONDefault_unknown_string (json : Json) (d : EnumDefault) (p : Bytes)
    (s : String) (v : Value) (typ : GoType) (old : Value)
    (hdec : json.Unmarshal p = .ok s) (hparse : d.Parse s = .ok v)
    (hacc : assignable v typ = true) :
    UnmarshalJSONDefault json d p (.pointer typ old) = .ok (none, .pointer typ v) ∧
    (∀ (invalid : Nat) (strs : List String) (w : uintEnumDefault),
      UintEnumDefault invalid strs = .ok w → d = w.toEnumDefault → s ∉ strs →
        v = .uint invalid) ∧
    (∀ (deflt : Value) (m visit : Map) (w : enumMapDefault),
      (m.map Prod.fst).Nodup → EnumMapDefault deflt m = .ok w → visit.Perm m →
        d = (w.revisit visit).toEnumDefault → (∀ k, mapGet m k ≠ some s) → v = deflt) := by
  refine ⟨?_, ?_, ?_⟩
  · exact UnmarshalJSONDefault_of_set json d p _ _ s v hdec hparse
      (reflectSet_of_assignable typ old v hacc)
  · intro invalid strs w hw hd hs
    obtain ⟨_, _, rfl⟩ := UintEnumDefault_eq_ok invalid strs w hw
    subst hd
    simp only [uintEnumDefault.toEnumDefault, Except.ok.injEq] at hparse
    rw [← hparse]
    exact uintEnumDefault_Parse_of_not_mem invalid strs s hs
  · intro deflt m visit w hk hw hp hd hs
    obtain ⟨sd, rev, _, _, rfl⟩ := EnumMapDefault_eq_ok deflt m w hw
    subst hd
    simp only [enumMapDefault.toEnumDefault, Except.ok.injEq] at hparse
    rw [← hparse]
    exact enumMapDefault_Parse_of_absent deflt m visit rev hk hp s hs

/-- Witness of C14 on the wrapper of the tests: the unrecognised string
"blah" leaves the default `0` in a `uint` variable that held `3`. -/
theorem C14_UnmarshalJSONDefault_unknown_string_witness :
    testJson.Unmarshal [34, 98, 108, 97, 104, 34] = .ok "blah" ∧
    (uintEnumDefault.toEnumDefault
      { invalid := 0, toUintEnum := ["invalid", "go", "stop", "potato"] }).Parse "blah" =
        .ok (.uint 0) ∧
    assignable (.uint 0) (.concrete "uint") = true ∧
    UnmarshalJSONDefault testJson
      (uintEnumDefault.toEnumDefault
        { invalid := 0, toUintEnum := ["invalid", "go", "stop", "potato"] })
      [34, 98, 108, 97, 104, 34] (.pointer (.concrete "uint") (.uint 3)) =
        .ok (none, .pointer (.concrete "uint") (.uint 0)) :=
  ⟨testJson_blah,
    congrArg Except.ok (uintEnumDefault_Parse_of_not_mem 0 _ "blah" (by decide)),
    rfl,
    (C14_UnmarshalJSONDefault_unknown_string testJson _ _ "blah" (.uint 0) (.concrete "uint")
      (.uint 3) testJson_blah
      (congrArg Except.ok (uintEnumDefault_Parse_of_not_mem 0 _ "blah" (by decide))) rfl).1⟩

/-- C15: when the input decodes to a string that the enum parses to a value
`v`, and `v` is not assignable to the output location, `UnmarshalJSON` and
`UnmarshalJSONDefault` return the error "can't assign <type of v> to <type of
val>" and do not panic. -/
theorem C15_incompatible_output_is_error (json : Json) (e : Enum) (d : EnumDefault)
    (p : Bytes) (s : String) (v : Value) (val : Target)
    (hdec : json.Unmarshal p = .ok s)
    (hna : ∀ (typ : GoType) (old : Value), val = .pointer typ old → assignable v typ = false) :
    (e.Parse s = .ok (v, none) →
      UnmarshalJSON json e p val =
        .ok (some (.errorf2 "can't assign %T to %T" v.typeName val.typeName), val)) ∧
    (d.Parse s = .ok v →
      UnmarshalJSONDefault json d p val =
        .ok (some (.errorf2 "can't assign %T to %T" v.typeName val.typeName), val)) := by
  obtain ⟨pn, hs⟩ := reflectSet_of_not_assignable val v hna
  exact ⟨fun hp => UnmarshalJSON_of_set_panic json e p val s v pn hdec hp hs,
    fun hp => UnmarshalJSONDefault_of_set_panic json d p val s v pn hdec hp hs⟩

/-- Witness of C15: a `uint` value into a `*string`, for the enum and for the
wrapper, as in `TestStupidUnmarshalJSON`. -/
theorem C15_incompatible_output_is_error_witness :
    testJson.Unmarshal [34, 97, 112, 112, 115, 34] = .ok "apps" ∧
    (∀ (typ : GoType) (old : Value),
      Target.pointer (.concrete "string") (.str "") = .pointer typ old →
        assignable (.uint 1) typ = false) ∧
    UnmarshalJSON testJson (uintEnum.toEnum ["naners", "apps", "tots"])
      [34, 97, 112, 112, 115, 34] (.pointer (.concrete "string") (.str "")) =
        .ok (some (.errorf2 "can't assign %T to %T" "uint" "*string"),
          .pointer (.concrete "string") (.str "")) ∧
    UnmarshalJSONDefault testJson
      (uintEnumDefault.toEnumDefault { invalid := 0, toUintEnum := ["naners", "apps", "tots"] })
      [34, 97, 112, 112, 115, 34] (.pointer (.concrete "string") (.str "")) =
        .ok (some (.errorf2 "can't assign %T to %T" "uint" "*string"),
          .pointer (.concrete "string") (.str "")) := by
  have hna : ∀ (typ : GoType) (old : Value),
      Target.pointer (.concrete "string") (.str "") = .pointer typ old →
        assignable (.uint 1) typ = false := by
    intro typ old h
    cases h
    rfl
  have h := C15_incompatible_output_is_error testJson
    (uintEnum.toEnum ["naners", "apps", "tots"])
    (uintEnumDefault.toEnumDefault { invalid := 0, toUintEnum := ["naners", "apps", "tots"] })
    [34, 97, 112, 112, 115, 34] "apps" (.uint 1) (.pointer (.concrete "string") (.str ""))
    testJson_apps hna
  exact ⟨testJson_apps, hna, h.1 fruit_Parse_apps, h.2 fruitDefault_Parse_apps⟩

/-- C16, as amended: for an output location that accepts every value the enum
parses from the input, `UnmarshalJSON` returns an error exactly when the
decoder `json.Unmarshal(p, &str)` returns one or `Parse` returns one on the
decoded string, and that error is
the one returned, the location being left as it was; when `Parse` returns a
value with a nil error the result is nil and the location holds that
value. -/
theorem C16_UnmarshalJSON_failure_conditions (json : Json) (e : Enum) (p : Bytes)
    (typ : GoType) (old : Value)
    (hcompat : ∀ (s : String) (v : Value), json.Unmarshal p = .ok s →
      e.Parse s = .ok (v, none) → assignable v typ = true) :
    ((∃ (err : GoError) (val2 : Target),
        UnmarshalJSON json e p (.pointer typ old) = .ok (some err, val2)) ↔
      ((∃ err, json.Unmarshal p = .error err) ∨
        ∃ (s : String) (v : Value) (err : GoError),
          json.Unmarshal p = .ok s ∧ e.Parse s = .ok (v, some err))) ∧
    (∀ err : GoError, json.Unmarshal p = .error err →
      UnmarshalJSON json e p (.pointer typ old) = .ok (some err, .pointer typ old)) ∧
    (∀ (s : String) (v : Value) (err : GoError), json.Unmarshal p = .ok s →
      e.Parse s = .ok (v, some err) →
      UnmarshalJSON json e p (.pointer typ old) = .ok (some err, .pointer typ old)) ∧
    (∀ (s : String) (v : Value), json.Unmarshal p = .ok s → e.Parse s = .ok (v, none) →
      UnmarshalJSON json e p (.pointer typ old) = .ok (none, .pointer typ v)) ∧
    (∀ pn : Panic, UnmarshalJSON json e p (.pointer typ old) = .error pn ↔
      ∃ s : String, json.Unmarshal p = .ok s ∧ e.Parse s = .error pn) := by
  have hset : ∀ (s : String) (v : Value), json.Unmarshal p = .ok s →
      e.Parse s = .ok (v, none) →
      UnmarshalJSON json e p (.pointer typ old) = .ok (none, .pointer typ v) := by
    intro s v hd hp
    exact UnmarshalJSON_of_set json e p _ _ s v hd hp
      (reflectSet_of_assignable typ old v (hcompat s v hd hp))
  refine ⟨⟨?_, ?_⟩, ?_, ?_, hset, ?_⟩
  · rintro ⟨err, val2, h⟩
    cases hd : json.Unmarshal p with
    | error derr => exact Or.inl ⟨derr, rfl⟩
    | ok s =>
      cases hp : e.Parse s with
      | error pn =>
        rw [UnmarshalJSON_of_parse_panic json e p _ s pn hd hp] at h
        cases h
      | ok r =>
        obtain ⟨v, perr⟩ := r
        cases perr with
        | some perr0 => exact Or.inr ⟨s, v, perr0, rfl, hp⟩
        | none =>
          rw [hset s v hd hp] at h
          simp only [Except.ok.injEq, Prod.mk.injEq] at h
          cases h.1
  · rintro (⟨err, hd⟩ | ⟨s, v, err, hd, hp⟩)
    · exact ⟨err, _, UnmarshalJSON_of_decode_error json e p _ err hd⟩
    · exact ⟨err, _, UnmarshalJSON_of_parse_error json e p _ s v err hd hp⟩
  · intro err hd
    exact UnmarshalJSON_of_decode_error json e p _ err hd
  · intro s v err hd hp
    exact UnmarshalJSON_of_parse_error json e p _ s v err hd hp
  · intro pn
    constructor
    · intro h
      cases hd : json.Unmarshal p with
      | error derr =>
        rw [UnmarshalJSON_of_decode_error json e p _ derr hd] at h
        cases h
      | ok s =>
        cases hp : e.Parse s with
        | error qn =>
          rw [UnmarshalJSON_of_parse_panic json e p _ s qn hd hp] at h
          simp only [Except.error.injEq] at h
          exact ⟨s, rfl, by rw [hp, h]⟩
        | ok r =>
          obtain ⟨v, perr⟩ := r
          cases perr with
          | some perr0 =>
            rw [UnmarshalJSON_of_parse_error json e p _ s v perr0 hd hp] at h
            cases h
          | none =>
            rw [hset s v hd hp] at h
            cases h
    · rintro ⟨s, hd, hp⟩
      exact UnmarshalJSON_of_parse_panic json e p _ s pn hd hp

/-- Witness of C16 on the table of the tests and a `uint` variable: the
string "apps" is stored as `1`, the string "blah" gives `ErrUnknown`. -/
theorem C16_UnmarshalJSON_failure_conditions_witness :
    UnmarshalJSON testJson (uintEnum.toEnum ["naners", "apps", "tots"])
      [34, 97, 112, 112, 115, 34] (.pointer (.concrete "uint") (.uint 0)) =
        .ok (none, .pointer (.concrete "uint") (.uint 1)) ∧
    UnmarshalJSON testJson (uintEnum.toEnum ["naners", "apps", "tots"])
      [34, 98, 108, 97, 104, 34] (.pointer (.concrete "uint") (.uint 0)) =
        .ok (some .ErrUnknown, .pointer (.concrete "uint") (.uint 0)) := by
  constructor
  · refine (C16_UnmarshalJSON_failure_conditions testJson
      (uintEnum.toEnum ["naners", "apps", "tots"]) [34, 97, 112, 112, 115, 34]
      (.concrete "uint") (.uint 0) ?_).2.2.2.1 "apps" (.uint 1) testJson_apps fruit_Parse_apps
    intro s v hd hp
    rw [testJson_apps] at hd
    cases hd
    rw [fruit_Parse_apps] at hp
    cases hp
    rfl
  · refine (C16_UnmarshalJSON_failure_conditions testJson
      (uintEnum.toEnum ["naners", "apps", "tots"]) [34, 98, 108, 97, 104, 34]
      (.concrete "uint") (.uint 0) ?_).2.2.1 "blah" (.int 0) .ErrUnknown testJson_blah
      fruit_Parse_blah
    intro s v hd hp
    rw [testJson_blah] at hd
    cases hd
    rw [fruit_Parse_blah] at hp
    cases hp

theorem testJson_null : testJson.Unmarshal [110, 117, 108, 108] = .ok "" := by
  rfl

theorem emptyName_Parse :
    (uintEnum.toEnum ["", "a"]).Parse "" = .ok (.uint 0, none) :=
  congrArg Except.ok (by decide : uintEnum.Parse ["", "a"] "" = _)

/-- C16, counterexample to the claim as stated: the input `null` is not a
JSON string, the decoder returns a nil error on it and leaves the string
empty, and for the table with the empty string at index 0 `UnmarshalJSON`
then returns nil and stores `0`; so an input that is no JSON string does not
always give an error. -/
theorem C16_null_is_not_refused :
    UintEnum ["", "a"] = .ok ["", "a"] ∧
    startsJSONString [110, 117, 108, 108] = false ∧
    testJson.Unmarshal [110, 117, 108, 108] = .ok "" ∧
    UnmarshalJSON testJson (uintEnum.toEnum ["", "a"]) [110, 117, 108, 108]
      (.pointer (.concrete "uint") (.uint 1)) =
        .ok (none, .pointer (.concrete "uint") (.uint 0)) ∧
    ¬ ((∃ (err : GoError) (val2 : Target),
          UnmarshalJSON testJson (uintEnum.toEnum ["", "a"]) [110, 117, 108, 108]
            (.pointer (.concrete "uint") (.uint 1)) = .ok (some err, val2)) ↔
        (startsJSONString [110, 117, 108, 108] = false ∨
          ∃ (s : String) (v : Value) (err : GoError),
            testJson.Unmarshal [110, 117, 108, 108] = .ok s ∧
              (uintEnum.toEnum ["", "a"]).Parse s = .ok (v, some err))) := by
  have hU : UnmarshalJSON testJson (uintEnum.toEnum ["", "a"]) [110, 117, 108, 108]
      (.pointer (.concrete "uint") (.uint 1)) =
        .ok (none, .pointer (.concrete "uint") (.uint 0)) :=
    UnmarshalJSON_of_set testJson _ _ _ _ "" (.uint 0) testJson_null emptyName_Parse
      (reflectSet_of_assignable (.concrete "uint") (.uint 1) (.uint 0) rfl)
  refine ⟨UintEnum_of_nodup _ (by decide), rfl, testJson_null, hU, ?_⟩
  intro hiff
  obtain ⟨err, val2, h⟩ := hiff.2 (Or.inl rfl)
  rw [hU] at h
  simp only [Except.ok.injEq, Prod.mk.injEq] at h
  cases h.1

/-- C19: whenever `UnmarshalJSON` or `UnmarshalJSONDefault` returns a non-nil
error (decoder error, error of `Parse`, or value not assignable), the output
location is the same after the call as before. -/
theorem C19_unmarshal_error_leaves_output (json : Json) (e : Enum) (d : EnumDefault)
    (p : Bytes) (val val2 : Target) (err : GoError) :
    (UnmarshalJSON json e p val = .ok (some err, val2) → val2 = val) ∧
    (UnmarshalJSONDefault json d p val = .ok (some err, val2) → val2 = val) :=
  ⟨UnmarshalJSON_error_unchanged json e p val val2 err,
    UnmarshalJSONDefault_error_unchanged json d p val val2 err⟩

/-- Witness of C19: the unrecognised string "blah" gives `ErrUnknown` and the
`uint` variable keeps its `2`. -/
theorem C19_unmarshal_error_leaves_output_witness :
    UnmarshalJSON testJson (uintEnum.toEnum ["naners", "apps", "tots"])
      [34, 98, 108, 97, 104, 34] (.pointer (.concrete "uint") (.uint 2)) =
        .ok (some .ErrUnknown, .pointer (.concrete "uint") (.uint 2)) ∧
    Target.pointer (.concrete "uint") (.uint 2) = .pointer (.concrete "uint") (.uint 2) :=
  ⟨UnmarshalJSON_of_parse_error testJson _ _ _ "blah" (.int 0) .ErrUnknown testJson_blah
      fruit_Parse_blah,
    (C19_unmarshal_error_leaves_output testJson (uintEnum.toEnum ["naners", "apps", "tots"])
      (uintEnumDefault.toEnumDefault { invalid := 0, toUintEnum := ["naners", "apps", "tots"] })
      [34, 98, 108, 97, 104, 34] (.pointer (.concrete "uint") (.uint 2))
      (.pointer (.concrete "uint") (.uint 2)) .ErrUnknown).1
      (UnmarshalJSON_of_parse_error testJson _ _ _ "blah" (.int 0) .ErrUnknown testJson_blah
        fruit_Parse_blah)⟩

theorem invertFrom_get (m : List (Value × String)) (rev0 r : List (String × Value))
    (h : Map.invertFrom rev0 m = .ok r) (s : String) (v : Value) :
    mapGet r s = some v ↔ ((v, s) ∈ m ∨ mapGet rev0 s = some v) := by
  induction m generalizing rev0 with
  | nil =>
    simp only [Map.invertFrom, Except.ok.injEq] at h
    subst h
    simp
  | cons e rest ih =>
    obtain ⟨v0, s0⟩ := e
    by_cases hsome : (mapGet rev0 s0).isSome = true
    · simp only [Map.invertFrom, if_pos hsome] at h
      cases h
    · simp only [Map.invertFrom, if_neg hsome] at h
      rw [ih _ h, mapGet_mapSet]
      have hnone : mapGet rev0 s0 = none := by
        cases hg : mapGet rev0 s0 with
        | none => rfl
        | some x => rw [hg] at hsome; exact absurd rfl hsome
      by_cases hs : s0 = s
      · subst hs
        simp only [if_true, Option.some.injEq, List.mem_cons, Prod.mk.injEq, and_true, hnone]
        constructor
        · rintro (h1 | h1)
          · exact Or.inl (Or.inr h1)
          · exact Or.inl (Or.inl h1.symm)
        · rintro ((h1 | h1) | h1)
          · exact Or.inr h1.symm
          · exact Or.inl h1
          · cases h1
      · simp only [if_neg hs, List.mem_cons, Prod.mk.injEq]
        constructor
        · rintro (h1 | h1)
          · exact Or.inl (Or.inr h1)
          · exact Or.inr h1
        · rintro ((h1 | h1) | h1)
          · exact absurd h1.2.symm hs
          · exact Or.inl h1
          · exact Or.inr h1

theorem EnumMap_rev (m : Map) (enum : enumMap) (h : EnumMap m = .ok enum) :
    m.invert = .ok enum.rev := by
  unfold EnumMap at h
  cases h2 : m.invert with
  | error err => rw [h2] at h; cases h
  | ok rev =>
    rw [h2] at h
    simp only [Except.ok.injEq] at h
    rw [← h]

theorem rev_get_iff (m : Map) (enum : enumMap) (hk : (m.map Prod.fst).Nodup)
    (he : EnumMap m = .ok enum) (s : String) (v : Value) :
    mapGet enum.rev s = some v ↔ mapGet m v = some s := by
  rw [invertFrom_get m [] enum.rev (EnumMap_rev m enum he) s v, ← mapGet_eq_some_of_mem m hk]
  simp [mapGet]

/-- C17: for an enum built by `EnumMap(m)`, the inverse table satisfies
`rev[s] = v` exactly when `m[v] = s`, and for every string `s` and every
order in which the forward map is visited, the scan of `Parse(s)` returns
`rev[s]` with a nil error when `s` is a key of `rev` and `ErrUnknown` when it
is not. -/
theorem C17_Parse_agrees_with_inverse (m : Map) (enum : enumMap)
    (hk : (m.map Prod.fst).Nodup) (he : EnumMap m = .ok enum) :
    (∀ (s : String) (v : Value), mapGet enum.rev s = some v ↔ mapGet m v = some s) ∧
    (∀ visit : Map, visit.Perm m → ∀ s : String,
      (∀ v : Value, mapGet enum.rev s = some v → (enum.revisit visit).Parse s = (v, none)) ∧
      (mapGet enum.rev s = none →
        (enum.revisit visit).Parse s = (.str "", some .ErrUnknown))) := by
  have hrev := rev_get_iff m enum hk he
  have hs : (m.map Prod.snd).Nodup := (EnumMap_ok_iff m).1 ⟨enum, he⟩
  have hm := EnumMap_eq_ok m enum he
  obtain ⟨em, rev⟩ := enum
  simp only at hm
  subst hm
  refine ⟨hrev, fun visit hp s => ⟨fun v hv => ?_, fun hn => ?_⟩⟩
  · exact Parse_revisit_of_get em visit rev hk hs hp v s ((hrev s v).1 hv)
  · apply Parse_revisit_of_absent em visit rev hk hp s
    intro v hv
    have := (hrev s v).2 hv
    simp only at this hn
    rw [hn] at this
    cases this

/-- Witness of C17 on two entries of the REST table of the tests, visited in
the other order. -/
theorem C17_Parse_agrees_with_inverse_witness :
    ([(Value.record "REST" ["http://example.com", "POST", "/puppy"], "Puppy CREATE"),
      (Value.record "REST" ["http://example.com", "GET", "/puppy/:id"],
        "Puppy SHOW")].map Prod.fst).Nodup ∧
    ∃ enum : enumMap,
      EnumMap [(Value.record "REST" ["http://example.com", "POST", "/puppy"], "Puppy CREATE"),
        (Value.record "REST" ["http://example.com", "GET", "/puppy/:id"],
          "Puppy SHOW")] = .ok enum ∧
      (mapGet enum.rev "hong kong FOOEY" = none →
        (enum.revisit
          [(Value.record "REST" ["http://example.com", "GET", "/puppy/:id"], "Puppy SHOW"),
            (Value.record "REST" ["http://example.com", "POST", "/puppy"],
              "Puppy CREATE")]).Parse "hong kong FOOEY" = (.str "", some .ErrUnknown)) := by
  have hk : ([(Value.record "REST" ["http://example.com", "POST", "/puppy"], "Puppy CREATE"),
      (Value.record "REST" ["http://example.com", "GET", "/puppy/:id"],
        "Puppy SHOW")].map Prod.fst).Nodup := by decide
  obtain ⟨rev, he⟩ := EnumMap_of_strings_nodup
    [(Value.record "REST" ["http://example.com", "POST", "/puppy"], "Puppy CREATE"),
      (Value.record "REST" ["http://example.com", "GET", "/puppy/:id"], "Puppy SHOW")]
    (by decide)
  exact ⟨hk, _, he,
    ((C17_Parse_agrees_with_inverse _ _ hk he).2 _ (List.Perm.swap _ _ _)
      "hong kong FOOEY").2⟩

theorem collect_nodup (visit : List (String × Nat)) (hk : (visit.map Prod.fst).Nodup) :
    (dupCheck.collect visit).Nodup :=
  List.Nodup.sublist ((List.filter_sublist visit).map Prod.fst) hk

/-- C18: for a list `strs` with a repeated string, `dupCheck` panics, and the
list of strings in its panic holds each string that occurs at least twice in
`strs` exactly once and no string that occurs once or not at all; the same is
true of the list collected in any other visiting order of the counting
map. -/
theorem C18_dupCheck_report (strs : List String) (hrep : ¬ strs.Nodup) :
    dupCheck strs = .error (.duplicateStrings (dupCheck.collect (strs.foldl incr []))) ∧
    ∀ visit : List (String × Nat), visit.Perm (strs.foldl incr []) →
      (∀ k : String, 2 ≤ strs.count k → (dupCheck.collect visit).count k = 1) ∧
      (∀ k : String, strs.count k < 2 → (dupCheck.collect visit).count k = 0) := by
  refine ⟨dupCheck_of_not_nodup strs hrep, fun visit hp => ?_⟩
  have hperm : (dupCheck.collect visit).Perm (dupCheck.dups strs) :=
    (hp.filter _).map Prod.fst
  have hnd : (dupCheck.dups strs).Nodup := collect_nodup _ (countsOf_all strs).1
  constructor
  · intro k hk
    rw [hperm.count_eq]
    exact List.count_eq_one_of_mem hnd ((mem_dups_iff strs k).2 (by omega))
  · intro k hk
    rw [hperm.count_eq]
    exact List.count_eq_zero_of_not_mem (fun h => by
      have := (mem_dups_iff strs k).1 h
      omega)

/-- Witness of C18 on the duplicate table of the tests. -/
theorem C18_dupCheck_report_witness :
    ¬ ["abc", "abc"].Nodup ∧
    dupCheck ["abc", "abc"] = .error (.duplicateStrings ["abc"]) :=
  ⟨by decide, (C18_dupCheck_report ["abc", "abc"] (by decide)).1⟩

/-- The associative wrapper normalises into its domain on the values of
comparable type: what `Parse` returns is a key of the map, and formatting or
parsing a second time changes nothing, in whatever order `Parse` visits the
entries. -/
theorem enumMapDefault_normalises (deflt : Value) (m visit : Map) (d : enumMapDefault)
    (hk : (m.map Prod.fst).Nodup) (hc : ∀ k ∈ m.map Prod.fst, Value.comparable k = true)
    (hd : EnumMapDefault deflt m = .ok d)
    (hp : visit.Perm m) (s : String) (v : Value) (hv : v.comparable = true) :
    (∃ sk, d.m.Format ((d.revisit visit).Parse s) = .ok (sk, none)) ∧
    (∃ sv, d.Format v = .ok sv ∧ d.Format ((d.revisit visit).Parse sv) = .ok sv) ∧
    (∃ sk, d.Format ((d.revisit visit).Parse s) = .ok sk ∧
      (d.revisit visit).Parse sk = (d.revisit visit).Parse s) := by
  have hcd := EnumMapDefault_comparable deflt m d hd
  obtain ⟨sd, rev, hg, hs, rfl⟩ := EnumMapDefault_eq_ok deflt m d hd
  have hB : ∀ (k : Value) (sk : String), mapGet m k = some sk →
      enumMapDefault.Format { deflt := deflt, m := { m := m, rev := rev } } k = .ok sk ∧
      (enumMapDefault.revisit { deflt := deflt, m := { m := m, rev := rev } } visit).Parse sk =
        k := by
    intro k sk hksk
    constructor
    · simp only [enumMapDefault.Format,
        Format_of_get { m := m, rev := rev } k sk (comparable_of_get m hc k sk hksk) hksk]
    · simp only [enumMapDefault.Parse, enumMapDefault.revisit,
        Parse_revisit_of_get m visit rev hk hs hp k sk hksk]
  have hA : ∀ t : String, ∃ (k : Value) (sk : String),
      (enumMapDefault.revisit { deflt := deflt, m := { m := m, rev := rev } } visit).Parse t =
        k ∧ mapGet m k = some sk := by
    intro t
    by_cases ht : ∃ k, mapGet m k = some t
    · obtain ⟨k, hkt⟩ := ht
      exact ⟨k, t, (hB k t hkt).2, hkt⟩
    · push_neg at ht
      exact ⟨deflt, sd, enumMapDefault_Parse_of_absent deflt m visit rev hk hp t ht, hg⟩
  have hC : ∃ (k : Value) (sv : String), mapGet m k = some sv ∧
      enumMapDefault.Format { deflt := deflt, m := { m := m, rev := rev } } v = .ok sv := by
    cases hx : mapGet m v with
    | some sx => exact ⟨v, sx, hx, (hB v sx hx).1⟩
    | none =>
      refine ⟨deflt, sd, hg, ?_⟩
      simp only [enumMapDefault.Format, Format_of_get_none { m := m, rev := rev } v hv hx,
        Format_of_get { m := m, rev := rev } deflt sd hcd hg]
  refine ⟨?_, ?_, ?_⟩
  · obtain ⟨k, sk, h1, h2⟩ := hA s
    rw [h1]
    exact ⟨sk, Format_of_get { m := m, rev := rev } k sk (comparable_of_get m hc k sk h2) h2⟩
  · obtain ⟨k, sv, h1, h2⟩ := hC
    refine ⟨sv, h2, ?_⟩
    rw [(hB k sv h1).2]
    exact (hB k sv h1).1
  · obtain ⟨k, sk, h1, h2⟩ := hA s
    refine ⟨sk, ?_, ?_⟩
    · rw [h1]; exact (hB k sk h2).1
    · rw [h1]; exact (hB k sk h2).2

/-- C20, at the failing input: the wrapper that `UintEnumDefault(1 << 63,
{"abc", "def"})` builds parses an unknown string to `uint(1 << 63)`, which
is outside the base domain, the base `Format` and the wrapper's `Format`
panicking on it; and the wrapper with default `0` panics in
`Format(uint(1 << 63))`, so that value has no normal form. -/
theorem C20_Default_Parse_outside_domain :
    (∃ d : uintEnumDefault, UintEnumDefault (2 ^ 63) ["abc", "def"] = .ok d ∧
      d.Parse "nope" = .uint (2 ^ 63) ∧
      d.toUintEnum.Format (d.Parse "nope") = .error (.indexOutOfRange (2 ^ 63) 2) ∧
      d.Format (d.Parse "nope") = .error (.indexOutOfRange (2 ^ 63) 2)) ∧
    (∃ d : uintEnumDefault, UintEnumDefault 0 ["abc", "def"] = .ok d ∧
      d.Format (.uint (2 ^ 63)) = .error (.indexOutOfRange (2 ^ 63) 2)) := by
  have hF : uintEnum.Format ["abc", "def"] (.uint (2 ^ 63)) =
      .error (.indexOutOfRange (2 ^ 63) 2) :=
    Format_uint_of_high _ (by decide) _ (by decide) (by decide)
  constructor
  · refine ⟨_, UintEnumDefault_of_nodup _ _ (by decide) (by decide), ?_⟩
    have hP : uintEnumDefault.Parse { invalid := 2 ^ 63, toUintEnum := ["abc", "def"] } "nope" =
        .uint (2 ^ 63) := uintEnumDefault_Parse_of_not_mem _ _ _ (by decide)
    refine ⟨hP, ?_, ?_⟩
    · rw [hP]; exact hF
    · rw [hP]
      simp only [uintEnumDefault.Format, hF]
  · refine ⟨_, UintEnumDefault_of_nodup _ _ (by decide) (by decide), ?_⟩
    simp only [uintEnumDefault.Format, hF]

end enumstr
